import Mathlib

/-!
Verification development for the firepit columnar STIX-observation store.

The repository ships the CLI front end and the test suite; the storage
engine itself (shredder, pattern compiler, view engine, identity layer)
is specified in spec.md sections 3 to 8.  The definitions below are a
shallow embedding of that engine: SQL tables become association-list
tables, views become an explicit binding environment, and the pattern
language becomes a small AST with an executable evaluator.  Definitions
whose doc comments begin with "Modelled from the spec:" embed behaviour
of engine code that is not part of the source tree, following the words
of the specification.
-/

namespace Firepit

/-- Scalar cell values stored in a column: SQL NULL, text, or integer. -/
inductive Scalar where
  | null : Scalar
  | str : String → Scalar
  | int : Int → Scalar
deriving DecidableEq

/-- Cell values: a scalar, or a set-valued aggregate produced by grouping. -/
inductive Value where
  | scalar : Scalar → Value
  | setv : List Scalar → Value
deriving DecidableEq

/-- Shorthand for a NULL cell. -/
def vnull : Value := Value.scalar Scalar.null

/-- Shorthand for a text cell. -/
def vstr (s : String) : Value := Value.scalar (Scalar.str s)

/-- Shorthand for an integer cell. -/
def vint (n : Int) : Value := Value.scalar (Scalar.int n)

/-- A row is an association list from column names to cell values. -/
abbrev Row := List (String × Value)

/-- Read a column from a row; a missing column reads as NULL. -/
def rowGet (r : Row) (c : String) : Value :=
  match r.find? (fun p => p.1 == c) with
  | some p => p.2
  | none => vnull

/-- Whether a row carries a column of the given name. -/
def rowHas (r : Row) (c : String) : Bool :=
  (r.find? (fun p => p.1 == c)).isSome

/-- Bind a column of a row to a value, overriding any previous binding. -/
def rowSet (r : Row) (c : String) (v : Value) : Row :=
  (c, v) :: r.filter (fun p => p.1 != c)

/-- The integer content of a cell; non-integers read as 0 (SQL SUM skips them). -/
def valueToInt : Value → Int
  | Value.scalar (Scalar.int n) => n
  | _ => 0

/-- The text content of a cell; non-text reads as the empty string. -/
def valueToStr : Value → String
  | Value.scalar (Scalar.str s) => s
  | _ => ""

/-- Rank used to order cells of different shapes, NULLs first as in SQL. -/
def valueRank : Value → Nat
  | Value.scalar Scalar.null => 0
  | Value.scalar (Scalar.int _) => 1
  | Value.scalar (Scalar.str _) => 2
  | Value.setv _ => 3

/-- Total boolean order on cells used by the sort operation: integers
numerically, text lexicographically, shapes by rank. -/
def valueLe (a b : Value) : Bool :=
  match a, b with
  | Value.scalar (Scalar.int m), Value.scalar (Scalar.int n) => m ≤ n
  | Value.scalar (Scalar.str x), Value.scalar (Scalar.str y) => x ≤ y
  | _, _ => valueRank a ≤ valueRank b

/-- Fuelled core of SQL LIKE matching: every step shortens the pattern or
the subject, so the fuel used by likeMatch is never exhausted. -/
def likeAux : Nat → List Char → List Char → Bool
  | 0, p, s => p.isEmpty && s.isEmpty
  | _ + 1, [], [] => true
  | _ + 1, [], _ :: _ => false
  | f + 1, '%' :: ps, s =>
    likeAux f ps s ||
      (match s with
       | [] => false
       | _ :: s2 => likeAux f ('%' :: ps) s2)
  | _ + 1, _ :: _, [] => false
  | f + 1, c :: ps, d :: ss => c == d && likeAux f ps ss

/-- SQL LIKE matching with the percent wildcard, on character lists. -/
def likeMatch (p s : List Char) : Bool :=
  likeAux (p.length + s.length + 1) p s

/-- Regular expressions in parsed form, as produced by the pattern compiler
for the MATCHES operator. -/
inductive Regex where
  | emp : Regex
  | eps : Regex
  | chr : Char → Regex
  | dot : Regex
  | alt : Regex → Regex → Regex
  | cat : Regex → Regex → Regex
  | star : Regex → Regex
deriving DecidableEq

/-- Whether a regular expression accepts the empty string. -/
def Regex.nullable : Regex → Bool
  | Regex.emp => false
  | Regex.eps => true
  | Regex.chr _ => false
  | Regex.dot => false
  | Regex.alt a b => a.nullable || b.nullable
  | Regex.cat a b => a.nullable && b.nullable
  | Regex.star _ => true

/-- Brzozowski derivative of a regular expression by one character. -/
def Regex.deriv : Regex → Char → Regex
  | Regex.emp, _ => Regex.emp
  | Regex.eps, _ => Regex.emp
  | Regex.chr c, d => if c == d then Regex.eps else Regex.emp
  | Regex.dot, _ => Regex.eps
  | Regex.alt a b, d => Regex.alt (a.deriv d) (b.deriv d)
  | Regex.cat a b, d =>
    if a.nullable then Regex.alt (Regex.cat (a.deriv d) b) (b.deriv d)
    else Regex.cat (a.deriv d) b
  | Regex.star a, d => Regex.cat (a.deriv d) (Regex.star a)

/-- Regular-expression matching by iterated derivatives. -/
def reMatch (r : Regex) (s : List Char) : Bool :=
  (s.foldl Regex.deriv r).nullable

/-- Split a character list at every occurrence of a separator character. -/
def splitCharAux (sep : Char) : List Char → List Char → List (List Char)
  | [], acc => [acc.reverse]
  | c :: cs, acc =>
    if c == sep then acc.reverse :: splitCharAux sep cs []
    else splitCharAux sep cs (c :: acc)

/-- Split a string at every occurrence of a separator character. -/
def splitChar (sep : Char) (s : String) : List String :=
  (splitCharAux sep s.data []).map (fun l => String.mk l)

/-- The numeric value of a decimal digit character. -/
def digitVal (c : Char) : Option Nat :=
  if c.isDigit then some (c.toNat - 48) else none

/-- Accumulate the decimal value of a digit list. -/
def toNatAux : List Char → Nat → Option Nat
  | [], acc => some acc
  | c :: cs, acc =>
    match digitVal c with
    | some d => toNatAux cs (acc * 10 + d)
    | none => none

/-- Parse a non-empty all-digit string as a natural number. -/
def parseNat (s : String) : Option Nat :=
  match s.data with
  | [] => none
  | l => toNatAux l 0

/-- Parse a dotted-quad IPv4 address into its 32-bit numeric form. -/
def parseIPv4 (s : String) : Option Nat :=
  match (splitChar '.' s).mapM parseNat with
  | some [a, b, c, d] =>
    if a < 256 && b < 256 && c < 256 && d < 256 then
      some (((a * 256 + b) * 256 + c) * 256 + d)
    else none
  | _ => none

/-- Parse an address or CIDR block into numeric address and mask length. -/
def parseCIDR (s : String) : Option (Nat × Nat) :=
  match splitChar '/' s with
  | [ip] => (parseIPv4 ip).map (fun a => (a, 32))
  | [ip, n] =>
    match parseIPv4 ip, parseNat n with
    | some a, some k => if k ≤ 32 then some (a, k) else none
    | _, _ => none
  | _ => none

/-- Modelled from the spec: the ISSUBSET predicate of the pattern compiler
(section 4.4).  The left value, read as an address or block, is contained in
the right CIDR block when the right mask is no longer than the left one and
both agree on the right network bits.  Unparsable operands compare false. -/
def cidrSubset (l r : String) : Bool :=
  match parseCIDR l, parseCIDR r with
  | some lp, some rp =>
    rp.2 ≤ lp.2 && (lp.1 / 2 ^ (32 - rp.2) == rp.1 / 2 ^ (32 - rp.2))
  | _, _ => false

/-- A type table: the rows of one SCO type, keyed by their id column. -/
abbrev Table := List Row

/-- The table environment: one wide table per observed SCO type. -/
abbrev Tables := List (String × Table)

/-- The table recorded for an SCO type; an unobserved type reads as empty. -/
def tableOf (ts : Tables) (ty : String) : Table :=
  match ts.find? (fun p => p.1 == ty) with
  | some p => p.2
  | none => []

/-- Replace or create the table of one SCO type. -/
def setTable (ts : Tables) (ty : String) (t : Table) : Tables :=
  (ty, t) :: ts.filter (fun p => p.1 != ty)

/-- Find a row by id inside one table. -/
def findRowById (t : Table) (i : String) : Option Row :=
  t.find? (fun r => rowGet r "id" == vstr i)

/-- Find a row by id across every type table; ids are globally unique. -/
def findGlobal (ts : Tables) (i : String) : Option Row :=
  ts.findSome? (fun p => findRowById p.2 i)

/-- Modelled from the spec: dotted attribute paths (section 9) are read-time
projections; each leading component is a reference column holding the id of
the child observation, resolved through the table environment. -/
def projectParts (ts : Tables) : Row → List String → Value
  | _, [] => vnull
  | row, [c] => rowGet row c
  | row, c :: c2 :: rest =>
    match rowGet row c with
    | Value.scalar (Scalar.str i) =>
      match findGlobal ts i with
      | some r2 => projectParts ts r2 (c2 :: rest)
      | none => vnull
    | _ => vnull

/-- Project an attribute path from a row: a literally present column is read
directly, otherwise the dotted path is resolved through references. -/
def projectPath (ts : Tables) (row : Row) (path : String) : Value :=
  if rowHas row path then rowGet row path else projectParts ts row (splitChar '.' path)

/-- Join path components back with colons. -/
def joinColon : List String → String
  | [] => ""
  | [x] => x
  | x :: y :: rest => x ++ ":" ++ joinColon (y :: rest)

/-- Drop the SCO-type part of a STIX object path, keeping the attribute. -/
def stripPathType (p : String) : String :=
  match splitChar ':' p with
  | [x] => x
  | _ :: rest => joinColon rest
  | [] => p

/-- Comparison operators of the pattern language (section 4.4). -/
inductive CompOp where
  | eqOp : CompOp
  | neOp : CompOp
  | ltOp : CompOp
  | leOp : CompOp
  | gtOp : CompOp
  | geOp : CompOp
  | likeOp : CompOp
  | matchesOp : CompOp
  | inOp : CompOp
  | isSubsetOp : CompOp
  | isSupersetOp : CompOp
deriving DecidableEq

/-- Right-hand side of a comparison: one value, a tuple for IN, or a
compiled regular expression for MATCHES. -/
inductive CompRhs where
  | val : Value → CompRhs
  | vals : List Value → CompRhs
  | re : Regex → CompRhs
deriving DecidableEq

/-- One comparison of the pattern language: an attribute path of the root
type, an operator possibly negated with NOT, and a right-hand side. -/
structure Comparison where
  prop : String
  negated : Bool
  op : CompOp
  rhs : CompRhs
deriving DecidableEq

/-- Boolean structure of a pattern inside one observation expression. -/
inductive PatternExpr where
  | comp : Comparison → PatternExpr
  | andE : PatternExpr → PatternExpr → PatternExpr
  | orE : PatternExpr → PatternExpr → PatternExpr
deriving DecidableEq

/-- A pattern in compiled form: its root SCO type and its expression. -/
structure Pattern where
  rootType : String
  expr : PatternExpr
deriving DecidableEq

/-- Strict version of the cell order. -/
def valueLt (a b : Value) : Bool :=
  valueLe a b && !(a == b)

/-- Modelled from the spec: evaluation of one comparison (operator table of
section 4.4) against a row.  The left-hand side is the projected attribute
path; NOT wraps the translated operator in a negation. -/
def evalComp (ts : Tables) (row : Row) (c : Comparison) : Bool :=
  let lv := projectPath ts row c.prop
  let base :=
    match c.op, c.rhs with
    | CompOp.eqOp, CompRhs.val v => lv == v
    | CompOp.neOp, CompRhs.val v => !(lv == v)
    | CompOp.ltOp, CompRhs.val v => valueLt lv v
    | CompOp.leOp, CompRhs.val v => valueLe lv v
    | CompOp.gtOp, CompRhs.val v => valueLt v lv
    | CompOp.geOp, CompRhs.val v => valueLe v lv
    | CompOp.likeOp, CompRhs.val (Value.scalar (Scalar.str pat)) =>
      match lv with
      | Value.scalar (Scalar.str x) => likeMatch pat.data x.data
      | _ => false
    | CompOp.matchesOp, CompRhs.re r =>
      match lv with
      | Value.scalar (Scalar.str x) => reMatch r x.data
      | _ => false
    | CompOp.inOp, CompRhs.vals l => l.contains lv
    | CompOp.isSubsetOp, CompRhs.val (Value.scalar (Scalar.str cidr)) =>
      match lv with
      | Value.scalar (Scalar.str x) => cidrSubset x cidr
      | _ => false
    | CompOp.isSupersetOp, CompRhs.val (Value.scalar (Scalar.str cidr)) =>
      match lv with
      | Value.scalar (Scalar.str x) => cidrSubset cidr x
      | _ => false
    | _, _ => false
  if c.negated then !base else base

/-- Evaluate the boolean structure of a pattern against a row. -/
def evalExpr (ts : Tables) (row : Row) : PatternExpr → Bool
  | PatternExpr.comp c => evalComp ts row c
  | PatternExpr.andE a b => evalExpr ts row a && evalExpr ts row b
  | PatternExpr.orE a b => evalExpr ts row a || evalExpr ts row b

/-- Evaluate a pattern against a row of its root type table. -/
def evalPattern (ts : Tables) (p : Pattern) (row : Row) : Bool :=
  evalExpr ts row p.expr

/-- Modelled from the spec: the stored definition of a view (sections 3 and
4.5).  Views created by extract, filter and merge are backed by a durable
membership list in the membership table; sort and group views reference
their source by name and consult its current contents at read time
(aliasing); a join references its two sides.  Rebinding a name under
itself inlines the previous definition, which the alternatives other than
a bare name reference make representable. -/
inductive VDef where
  | memb : String → List String → VDef
  | ofView : String → VDef
  | sorted : VDef → String → Bool → Option Nat → VDef
  | grouped : VDef → String → VDef
  | joined : VDef → String → VDef → String → VDef
deriving DecidableEq

/-- Decidable equality of results, used to evaluate the model on concrete
stores. -/
instance {e a : Type} [DecidableEq e] [DecidableEq a] : DecidableEq (Except e a) := fun x y =>
  match x, y with
  | Except.ok u, Except.ok v =>
    if h : u = v then Decidable.isTrue (congrArg Except.ok h)
    else Decidable.isFalse (fun he => h (Except.ok.inj he))
  | Except.error u, Except.error v =>
    if h : u = v then Decidable.isTrue (congrArg Except.error h)
    else Decidable.isFalse (fun he => h (Except.error.inj he))
  | Except.ok _, Except.error _ => Decidable.isFalse (fun he => Except.noConfusion he)
  | Except.error _, Except.ok _ => Decidable.isFalse (fun he => Except.noConfusion he)

/-- Errors surfaced at the public operation boundary (section 7). -/
inductive StoreErr where
  | UnknownViewname : String → StoreErr
  | IncompatibleType : StoreErr
  | InvalidPattern : StoreErr
  | InvalidAttr : StoreErr
  | StorageError : StoreErr
deriving DecidableEq

/-- Modelled from the spec: the whole session state (sections 3 and 6): the
per-type tables, the query table mapping a query id to its ingested ids,
and the view catalog with each view name bound to its definition. -/
structure Store where
  tables : Tables
  queries : List (String × List String)
  views : List (String × VDef)
deriving DecidableEq

/-- The definition currently bound to a view name, if any. -/
def viewLookup (s : Store) (n : String) : Option VDef :=
  match s.views.find? (fun p => p.1 == n) with
  | some p => some p.2
  | none => none

/-- Bind a view name to a definition, replacing any previous binding. -/
def setView (s : Store) (n : String) (d : VDef) : Store :=
  { s with views := (n, d) :: s.views.filter (fun p => p.1 != n) }

/-- The ids recorded for a query id, if the query was ever cached. -/
def queryLookup (s : Store) (q : String) : Option (List String) :=
  match s.queries.find? (fun p => p.1 == q) with
  | some p => some p.2
  | none => none

/-- The rows of a membership-backed view: each recorded id resolved in the
type table of the view, in membership order. -/
def membRows (ts : Tables) (ty : String) (ids : List String) : List Row :=
  ids.filterMap (fun i => findRowById (tableOf ts ty) i)

/-- Insert a row into an already ordered list, keeping the order. -/
def insertLe (le : Row → Row → Bool) (r : Row) : List Row → List Row
  | [] => [r]
  | x :: xs => if le r x then r :: x :: xs else x :: insertLe le r xs

/-- Stable insertion sort of rows under a boolean order. -/
def insertionSort (le : Row → Row → Bool) : List Row → List Row
  | [] => []
  | x :: xs => insertLe le x (insertionSort le xs)

/-- Sort rows by the projection of one attribute path; an optional limit
truncates the result. -/
def sortRows (ts : Tables) (rows : List Row) (col : String) (asc : Bool)
    (lim : Option Nat) : List Row :=
  let sortedRows := insertionSort (fun r1 r2 =>
    if asc then valueLe (projectPath ts r1 col) (projectPath ts r2 col)
    else valueLe (projectPath ts r2 col) (projectPath ts r1 col)) rows
  match lim with
  | none => sortedRows
  | some k => sortedRows.take k

/-- Aggregate the cells of one column over a group: the distinct scalar
values as a set-valued cell, or NULL when a cell is not a scalar. -/
def aggValues (vs : List Value) : Value :=
  match vs.mapM (fun v => match v with
    | Value.scalar x => some x
    | Value.setv _ => none) with
  | some xs => Value.setv xs.dedup
  | none => vnull

/-- The output row of one group: the grouping value, the summed
number_observed, and a set-valued unique_ aggregate per other column. -/
def groupRowMk (ts : Tables) (rows : List Row) (col : String) (k : Value) : Row :=
  let grp := rows.filter (fun r => projectPath ts r col == k)
  let grpCols := (grp.flatMap (fun r => r.map (fun p => p.1))).dedup
  (col, k) ::
    ("number_observed",
      vint (grp.foldr (fun r acc => valueToInt (rowGet r "number_observed") + acc) 0)) ::
    grpCols.filterMap (fun c =>
      if c == col || c == "number_observed" then none
      else some ("unique_" ++ c, aggValues (grp.map (fun r => rowGet r c))))

/-- Modelled from the spec: the group operation (section 4.5).  Rows collapse
per distinct value of the grouping path; number_observed is summed over each
group; every other column reappears as a set-valued unique_ aggregate. -/
def groupRows (ts : Tables) (rows : List Row) (col : String) : List Row :=
  ((rows.map (fun r => projectPath ts r col)).dedup).map (groupRowMk ts rows col)

/-- Join equality on cells: NULL matches nothing, as in SQL. -/
def joinEq (a b : Value) : Bool :=
  !(a == vnull) && !(b == vnull) && a == b

/-- Merge a left and a matching right row; clashing column names resolve
with right precedence. -/
def rowMerge (lr rr : Row) : Row :=
  lr.filter (fun p => !(rowHas rr p.1)) ++ rr

/-- Pad a row with NULLs for the listed columns it does not carry. -/
def padRow (cols : List String) (r : Row) : Row :=
  r ++ (cols.filter (fun c => !(rowHas r c))).map (fun c => (c, vnull))

/-- The output rows one left row contributes to a LEFT OUTER join: its
merges with every matching right row, or its NULL-padded self alone. -/
def joinOne (rcols : List String) (rrows : List Row) (lcol rcol : String)
    (lr : Row) : List Row :=
  match rrows.filter (fun rr => joinEq (rowGet lr lcol) (rowGet rr rcol)) with
  | [] => [padRow rcols lr]
  | m :: ms => (m :: ms).map (fun rr => rowMerge lr rr)

/-- Modelled from the spec: LEFT OUTER join (section 4.5).  Every left row
appears; a row with matches is merged with each matching right row, a row
without matches is padded with NULLs on the columns of the right side. -/
def joinRows (lrows : List Row) (lcol : String) (rrows : List Row)
    (rcol : String) : List Row :=
  lrows.flatMap
    (joinOne ((rrows.flatMap (fun r => r.map (fun p => p.1))).dedup) rrows lcol rcol)

/-- Size of a view definition tree, used to bound evaluation fuel. -/
def defSize : VDef → Nat
  | VDef.memb _ _ => 1
  | VDef.ofView _ => 1
  | VDef.sorted d _ _ _ => defSize d + 1
  | VDef.grouped d _ => defSize d + 1
  | VDef.joined dl _ dr _ => defSize dl + defSize dr + 1

/-- Total size of every definition stored in the catalog. -/
def totalDefSize (s : Store) : Nat :=
  s.views.foldr (fun p acc => defSize p.2 + acc) 0

/-- Modelled from the spec: read-time evaluation of a view definition
(sections 4.5 and 6).  Membership-backed views resolve their recorded ids
in their type table; a name reference consults the current binding of that
name; sort, group and join recompute from their operands.  The fuel bounds
name dereferencing; it is chosen large enough for every acyclic catalog,
and a cyclic catalog surfaces the backend StorageError. -/
def evalDef (s : Store) : Nat → VDef → Except StoreErr (String × List Row)
  | 0, _ => Except.error StoreErr.StorageError
  | _ + 1, VDef.memb ty ids => Except.ok (ty, membRows s.tables ty ids)
  | f + 1, VDef.ofView n =>
    match viewLookup s n with
    | none => Except.error (StoreErr.UnknownViewname n)
    | some d => evalDef s f d
  | f + 1, VDef.sorted d col asc lim =>
    match evalDef s f d with
    | Except.ok p => Except.ok (p.1, sortRows s.tables p.2 col asc lim)
    | Except.error e => Except.error e
  | f + 1, VDef.grouped d col =>
    match evalDef s f d with
    | Except.ok p => Except.ok (p.1, groupRows s.tables p.2 col)
    | Except.error e => Except.error e
  | f + 1, VDef.joined dl lcol dr rcol =>
    match evalDef s f dl, evalDef s f dr with
    | Except.ok pl, Except.ok pr => Except.ok (pl.1, joinRows pl.2 lcol pr.2 rcol)
    | Except.error e, _ => Except.error e
    | Except.ok _, Except.error e => Except.error e

/-- Fuel that suffices to evaluate any view of an acyclic catalog: every
stored definition node and every name hop can be paid for. -/
def lookupFuel (s : Store) : Nat :=
  s.views.length + totalDefSize s + 1

/-- Retrieve a view (section 6): a bound name evaluates its definition; an
unbound name falls back to the type table of that name when one exists, and
raises UnknownViewname otherwise.  The result carries the SCO type. -/
def lookup (s : Store) (n : String) : Except StoreErr (String × List Row) :=
  match viewLookup s n with
  | some d => evalDef s (lookupFuel s) d
  | none =>
    match s.tables.find? (fun p => p.1 == n) with
    | some p => Except.ok (p.1, p.2)
    | none => Except.error (StoreErr.UnknownViewname n)

/-- Number of rows of a view (section 6). -/
def count (s : Store) (n : String) : Except StoreErr Nat :=
  (lookup s n).map (fun p => p.2.length)

/-- Projection of a STIX object path over a view, as a flat list. -/
def values (s : Store) (path : String) (n : String) : Except StoreErr (List Value) :=
  (lookup s n).map (fun p => p.2.map (fun r => projectPath s.tables r (stripPathType path)))

/-- Column names of a view: the union of the columns of its rows. -/
def columns (s : Store) (n : String) : Except StoreErr (List String) :=
  (lookup s n).map (fun p => (p.2.flatMap (fun r => r.map (fun q => q.1))).dedup)

/-- One observation handed to the shredder: its id, its SCO type, and its
remaining scalar properties. -/
structure Obs where
  id : String
  type : String
  props : Row
deriving DecidableEq

/-- The stored row of a freshly inserted observation: id and type columns
first, number_observed defaulted to 1 when the input does not carry it. -/
def obsRow (o : Obs) : Row :=
  ("id", vstr o.id) :: ("type", vstr o.type) ::
    (if rowHas o.props "number_observed" then o.props
     else ("number_observed", vint 1) :: o.props)

/-- Modelled from the spec: the identity layer of the shredder (sections 4.3
and 4.6).  On id collision number_observed is summed and non-null incoming
scalar values overwrite, while incoming NULLs never overwrite. -/
def mergeRow (r : Row) (o : Obs) : Row :=
  let incoming := valueToInt (rowGet (obsRow o) "number_observed")
  let r2 := rowSet r "number_observed"
    (vint (valueToInt (rowGet r "number_observed") + incoming))
  o.props.foldl (fun acc p =>
    if p.1 == "number_observed" || p.1 == "id" || p.1 == "type" then acc
    else if p.2 == vnull then acc
    else rowSet acc p.1 p.2) r2

/-- Upsert one observation into its type table: insert a new row, or merge
into the existing row of the same id. -/
def upsertObs (t : Table) (o : Obs) : Table :=
  match findRowById t o.id with
  | none => t ++ [obsRow o]
  | some _ => t.map (fun r => if rowGet r "id" == vstr o.id then mergeRow r o else r)

/-- Record ingested ids under a query id, extending an existing record. -/
def addQueryIds (s : Store) (q : String) (ids : List String) : Store :=
  let prev := (queryLookup s q).getD []
  { s with queries := (q, (prev ++ ids).dedup) :: s.queries.filter (fun p => p.1 != q) }

/-- Modelled from the spec: cache (sections 4.3 and 4.5): shred a bundle of
observations into their type tables, summing number_observed on duplicate
ids, and record the ingested ids under the query id.  Re-ingesting an
existing id is an ordinary re-observation and never raises. -/
def cache (s : Store) (q : String) (bundle : List Obs) : Store :=
  let s2 := bundle.foldl (fun acc o =>
    { acc with tables := setTable acc.tables o.type (upsertObs (tableOf acc.tables o.type) o) }) s
  addQueryIds s2 q (bundle.map (fun o => o.id))

/-- Modelled from the spec: extract (section 4.5).  The root type of the
pattern must equal the requested type; the new view is backed by the ids of
the query whose rows of that type satisfy the pattern. -/
def extractIds (s : Store) (ty : String) (qids : List String) (p : Pattern) :
    List String :=
  (qids.filter (fun i =>
    match findRowById (tableOf s.tables ty) i with
    | some r => evalPattern s.tables p r
    | none => false)).dedup

def extract (s : Store) (name ty q : String) (p : Pattern) :
    Except StoreErr Store :=
  if p.rootType != ty then Except.error StoreErr.IncompatibleType
  else
    match queryLookup s q with
    | none => Except.error (StoreErr.UnknownViewname q)
    | some qids => Except.ok (setView s name (VDef.memb ty (extractIds s ty qids p)))

/-- Whether a column name is a reference column, that is, ends in _ref. -/
def isRefCol (c : String) : Bool :=
  "_ref".data.isSuffixOf c.data

/-- The ids referenced by the reference columns of a row. -/
def refIds (r : Row) : List String :=
  r.filterMap (fun p =>
    if isRefCol p.1 then
      match p.2 with
      | Value.scalar (Scalar.str i) => some i
      | _ => none
    else none)

/-- The membership computed by the filter operation: the matching source
rows themselves when the requested type is the root type, otherwise the
distinct referenced observations of the requested type. -/
def filterIds (s : Store) (ty : String) (srows : List Row) (p : Pattern) :
    List String :=
  let matching := srows.filter (fun r => evalPattern s.tables p r)
  if p.rootType == ty then
    (matching.map (fun r => valueToStr (rowGet r "id"))).dedup
  else
    ((matching.flatMap refIds).filter (fun i =>
      (findRowById (tableOf s.tables ty) i).isSome)).dedup

/-- Modelled from the spec: filter (sections 4.5 and 9).  The pattern is
evaluated over the source view, whose type must be the root type of the
pattern.  When the requested type equals the root type the matching rows
form the view; otherwise the view collects the observations of the
requested type referenced by the matching rows, each qualifying id kept
once (the DISTINCT policy of section 9). -/
def filter (s : Store) (name ty src : String) (p : Pattern) :
    Except StoreErr Store :=
  match lookup s src with
  | Except.error e => Except.error e
  | Except.ok (sty, srows) =>
    if p.rootType != sty then Except.error StoreErr.IncompatibleType
    else
      Except.ok (setView s name (VDef.memb ty (filterIds s ty srows p)))

/-- Modelled from the spec: assign (section 4.5).  Sort and group create a
derived view over the source; the source is referenced by name so that a
later rebinding of the source is consulted at read time, except that a view
rebound under its own name inlines its previous definition. -/
def assign (s : Store) (name src op col : String) (asc : Bool)
    (lim : Option Nat) : Except StoreErr Store :=
  match viewLookup s src with
  | none => Except.error (StoreErr.UnknownViewname src)
  | some d =>
    let child := if name == src then d else VDef.ofView src
    let attr := stripPathType col
    if op == "sort" then Except.ok (setView s name (VDef.sorted child attr asc lim))
    else if op == "group" then Except.ok (setView s name (VDef.grouped child attr))
    else Except.error StoreErr.InvalidAttr

/-- Modelled from the spec: join (section 4.5).  A LEFT OUTER join of two
views on named columns, stored as a derived view over its two sides. -/
def join (s : Store) (name left lcol right rcol : String) :
    Except StoreErr Store :=
  match viewLookup s left with
  | none => Except.error (StoreErr.UnknownViewname left)
  | some dl =>
    match viewLookup s right with
    | none => Except.error (StoreErr.UnknownViewname right)
    | some dr =>
      let childl := if name == left then dl else VDef.ofView left
      let childr := if name == right then dr else VDef.ofView right
      Except.ok (setView s name (VDef.joined childl lcol childr rcol))

/-- The snapshot of the union of memberships taken by the merge operation:
every id of every source view, each id kept once. -/
def mergeIds (results : List (String × List Row)) : List String :=
  (results.flatMap (fun p => p.2.map (fun r => valueToStr (rowGet r "id")))).dedup

/-- Modelled from the spec: merge (sections 4.5 and 8).  Every source view
must share one SCO type; the new view snapshots the union of their
memberships into the membership table at construction time. -/
def lookupAll (s : Store) : List String → Except StoreErr (List (String × List Row))
  | [] => Except.ok []
  | n :: ns =>
    match lookup s n with
    | Except.error e => Except.error e
    | Except.ok p =>
      match lookupAll s ns with
      | Except.error e => Except.error e
      | Except.ok ps => Except.ok (p :: ps)

def merge (s : Store) (name : String) (srcs : List String) :
    Except StoreErr Store :=
  match lookupAll s srcs with
  | Except.error e => Except.error e
  | Except.ok results =>
    match results with
    | [] => Except.error StoreErr.InvalidAttr
    | (ty, _) :: _ =>
      if results.all (fun p => p.1 == ty) then
        Except.ok (setView s name (VDef.memb ty (mergeIds results)))
      else Except.error StoreErr.IncompatibleType

/-- Modelled from the spec: remove (section 4.5) drops the binding of a
view name; removing an unknown name raises before any mutation. -/
def removeView (s : Store) (n : String) : Except StoreErr Store :=
  match viewLookup s n with
  | none => Except.error (StoreErr.UnknownViewname n)
  | some _ => Except.ok { s with views := s.views.filter (fun p => p.1 != n) }

/-- Remove a list of views in order, stopping at the first error. -/
def removeViews : Store → List String → Except StoreErr Store
  | s, [] => Except.ok s
  | s, n :: ns =>
    match removeView s n with
    | Except.error e => Except.error e
    | Except.ok s2 => removeViews s2 ns

/-- Rewrite every reference to a view name inside a stored definition. -/
def defRename (old new : String) : VDef → VDef
  | VDef.memb ty ids => VDef.memb ty ids
  | VDef.ofView n => VDef.ofView (if n == old then new else n)
  | VDef.sorted d col asc lim => VDef.sorted (defRename old new d) col asc lim
  | VDef.grouped d col => VDef.grouped (defRename old new d) col
  | VDef.joined dl lcol dr rcol =>
    VDef.joined (defRename old new dl) lcol (defRename old new dr) rcol

/-- Modelled from the spec: rename (section 4.5) atomically renames a view;
dependent definitions resolve through the new name afterwards. -/
def renameView (s : Store) (old new : String) : Except StoreErr Store :=
  match viewLookup s old with
  | none => Except.error (StoreErr.UnknownViewname old)
  | some _ =>
    Except.ok { s with views := s.views.map (fun p =>
      (if p.1 == old then new else p.1, defRename old new p.2)) }

/-- Turn one flat load record into an observation of the given type: a
textual id column is preserved, any other id is synthesized from the type
and the position of the record (the uuid of section 4.3 elided). -/
def recordObs (ty : String) (i : Nat) (r : Row) : Obs :=
  { id :=
      match rowGet r "id" with
      | Value.scalar (Scalar.str x) => x
      | _ => ty ++ "--" ++ toString i
    type := ty
    props := r.filter (fun p => p.1 != "id" && p.1 != "type") }

/-- Lift a bare list of strings into load records with one value column. -/
def stringsToRecords (l : List String) : List Row :=
  l.map (fun x => [("value", vstr x)])

/-- Modelled from the spec: the SCO type used by load is the one provided,
or else is read from the type field of the records (sections 4.3 and 6). -/
def inferType (records : List Row) (scoType : Option String) : Option String :=
  match scoType with
  | some t => some t
  | none =>
    records.head?.bind (fun r =>
      match rowGet r "type" with
      | Value.scalar (Scalar.str t) => some t
      | _ => none)

/-- Modelled from the spec: load (sections 4.3 and 6).  Raw records are
ingested without the pattern language; the rows are shredded into the type
table and a view of exactly those ids is created; the SCO type is
returned. -/
def load (s : Store) (name : String) (records : List Row)
    (scoType : Option String) : Except StoreErr (String × Store) :=
  match inferType records scoType with
  | none => Except.error StoreErr.IncompatibleType
  | some ty =>
    let obss := records.enum.map (fun p => recordObs ty p.1 p.2)
    let s2 := obss.foldl (fun acc o =>
      { acc with tables := setTable acc.tables o.type (upsertObs (tableOf acc.tables o.type) o) }) s
    Except.ok (ty, setView s2 name (VDef.memb ty ((obss.map (fun o => o.id)).dedup)))

/-! Catalog and evaluator lemmas. -/

/-- Whether a definition tree references a view name. -/
def defMentions (n : String) : VDef → Bool
  | VDef.memb _ _ => false
  | VDef.ofView m => m == n
  | VDef.sorted d _ _ _ => defMentions n d
  | VDef.grouped d _ => defMentions n d
  | VDef.joined dl _ dr _ => defMentions n dl || defMentions n dr

/-- A name is fresh for a store when it is unbound and no stored definition
references it. -/
def freshName (s : Store) (n : String) : Prop :=
  viewLookup s n = none ∧ ∀ p ∈ s.views, defMentions n p.2 = false

instance (s : Store) (n : String) : Decidable (freshName s n) := by
  unfold freshName
  infer_instance

theorem length_insertLe (le : Row → Row → Bool) (r : Row) (l : List Row) :
    (insertLe le r l).length = l.length + 1 := by
  induction l with
  | nil => rfl
  | cons x xs ih =>
    simp only [insertLe]
    by_cases h : le r x = true
    · simp [h]
    · simp [h, ih]

theorem length_insertionSort (le : Row → Row → Bool) (l : List Row) :
    (insertionSort le l).length = l.length := by
  induction l with
  | nil => rfl
  | cons x xs ih => simp [insertionSort, length_insertLe, ih]

theorem length_sortRows_none (ts : Tables) (rows : List Row) (col : String)
    (asc : Bool) : (sortRows ts rows col asc none).length = rows.length := by
  simp [sortRows, length_insertionSort]

theorem tables_setView (s : Store) (n : String) (d : VDef) :
    (setView s n d).tables = s.tables := rfl

theorem viewLookup_setView_self (s : Store) (n : String) (d : VDef) :
    viewLookup (setView s n d) n = some d := by
  simp [viewLookup, setView]

theorem find?_fst_filter_ne {α : Type} {m n : String} (h : m ≠ n)
    (l : List (String × α)) :
    (l.filter (fun p => p.1 != n)).find? (fun p => p.1 == m) =
      l.find? (fun p => p.1 == m) := by
  induction l with
  | nil => rfl
  | cons p l ih =>
    by_cases hm : p.1 = m
    · have hn : (p.1 != n) = true := by simp [hm, h]
      simp [List.filter_cons, hn, List.find?_cons, hm, h]
    · by_cases hn : p.1 = n
      · have hb : (p.1 != n) = false := by simp [hn]
        have hmb : (p.1 == m) = false := by simp [hm]
        simp [List.filter_cons, hb, List.find?_cons, hmb, ih]
      · have hb : (p.1 != n) = true := by simp [hn]
        have hmb : (p.1 == m) = false := by simp [hm]
        simp [List.filter_cons, hb, List.find?_cons, hmb, ih]

theorem viewLookup_setView_ne (s : Store) {m n : String} (d : VDef)
    (h : m ≠ n) : viewLookup (setView s n d) m = viewLookup s m := by
  have hb : (n == m) = false := by
    simp [Ne.symm h]
  simp [viewLookup, setView, List.find?_cons, hb, find?_fst_filter_ne h]

theorem filter_ne_of_unbound {α : Type} {n : String} {l : List (String × α)}
    (h : l.find? (fun p => p.1 == n) = none) :
    l.filter (fun p => p.1 != n) = l := by
  apply List.filter_eq_self.mpr
  intro p hp
  have := List.find?_eq_none.mp h p hp
  simpa using this

theorem views_setView_fresh (s : Store) {n : String} (d : VDef)
    (h : viewLookup s n = none) :
    (setView s n d).views = (n, d) :: s.views := by
  have hf : s.views.find? (fun p => p.1 == n) = none := by
    unfold viewLookup at h
    cases hx : s.views.find? (fun p => p.1 == n) with
    | none => rfl
    | some p => rw [hx] at h; cases h
  simp [setView, filter_ne_of_unbound hf]

theorem viewLookup_mem {s : Store} {m : String} {dm : VDef}
    (h : viewLookup s m = some dm) : ∃ p ∈ s.views, p.2 = dm := by
  unfold viewLookup at h
  cases hf : s.views.find? (fun p => p.1 == m) with
  | none => rw [hf] at h; cases h
  | some p =>
    rw [hf] at h
    exact ⟨p, List.mem_of_find?_eq_some hf, by cases h; rfl⟩

theorem evalDef_setView_fresh {s : Store} {n : String} {d0 : VDef}
    (hfresh : freshName s n) :
    ∀ (f : Nat) (d : VDef), defMentions n d = false →
      evalDef (setView s n d0) f d = evalDef s f d := by
  intro f
  induction f with
  | zero => intro d _; rfl
  | succ f ih =>
    intro d hd
    cases d with
    | memb ty ids => simp [evalDef, setView]
    | ofView m =>
      have hm : m ≠ n := by simpa [defMentions] using hd
      rw [show evalDef (setView s n d0) (f + 1) (VDef.ofView m) =
          (match viewLookup (setView s n d0) m with
           | none => Except.error (StoreErr.UnknownViewname m)
           | some d2 => evalDef (setView s n d0) f d2) from rfl]
      rw [show evalDef s (f + 1) (VDef.ofView m) =
          (match viewLookup s m with
           | none => Except.error (StoreErr.UnknownViewname m)
           | some d2 => evalDef s f d2) from rfl]
      rw [viewLookup_setView_ne s d0 hm]
      cases hv : viewLookup s m with
      | none => rfl
      | some d2 =>
        obtain ⟨p, hp, hpd⟩ := viewLookup_mem hv
        exact ih d2 (hpd ▸ hfresh.2 p hp)
    | sorted d col asc lim =>
      have hc : defMentions n d = false := by simpa [defMentions] using hd
      simp only [evalDef, ih d hc, tables_setView]
    | grouped d col =>
      have hc : defMentions n d = false := by simpa [defMentions] using hd
      simp only [evalDef, ih d hc, tables_setView]
    | joined dl lcol dr rcol =>
      have hc : defMentions n dl = false ∧ defMentions n dr = false := by
        simpa [defMentions] using hd
      simp only [evalDef, ih dl hc.1, ih dr hc.2]

theorem evalDef_mono {s : Store} :
    ∀ (f f2 : Nat) (d : VDef), f ≤ f2 →
      evalDef s f d ≠ Except.error StoreErr.StorageError →
      evalDef s f2 d = evalDef s f d := by
  intro f
  induction f with
  | zero =>
    intro f2 d _ hne
    exact absurd rfl hne
  | succ f ih =>
    intro f2 d hle hne
    obtain ⟨f3, rfl⟩ : ∃ f3, f2 = f3 + 1 := by
      cases f2 with
      | zero => omega
      | succ f3 => exact ⟨f3, rfl⟩
    have hle3 : f ≤ f3 := by omega
    cases d with
    | memb ty ids => rfl
    | ofView m =>
      rw [show evalDef s (f + 1) (VDef.ofView m) =
          (match viewLookup s m with
           | none => Except.error (StoreErr.UnknownViewname m)
           | some d2 => evalDef s f d2) from rfl] at hne ⊢
      rw [show evalDef s (f3 + 1) (VDef.ofView m) =
          (match viewLookup s m with
           | none => Except.error (StoreErr.UnknownViewname m)
           | some d2 => evalDef s f3 d2) from rfl]
      cases hv : viewLookup s m with
      | none => rfl
      | some d2 =>
        rw [hv] at hne
        exact ih f3 d2 hle3 hne
    | sorted d col asc lim =>
      simp only [evalDef] at hne ⊢
      cases hd : evalDef s f d with
      | ok p =>
        rw [ih f3 d hle3 (by rw [hd]; intro h; cases h), hd]
      | error e =>
        have hee : e ≠ StoreErr.StorageError := by
          intro h; exact hne (by rw [hd, h])
        rw [ih f3 d hle3 (by rw [hd]; intro h; exact hee (Except.error.inj h)), hd]
    | grouped d col =>
      simp only [evalDef] at hne ⊢
      cases hd : evalDef s f d with
      | ok p =>
        rw [ih f3 d hle3 (by rw [hd]; intro h; cases h), hd]
      | error e =>
        have hee : e ≠ StoreErr.StorageError := by
          intro h; exact hne (by rw [hd, h])
        rw [ih f3 d hle3 (by rw [hd]; intro h; exact hee (Except.error.inj h)), hd]
    | joined dl lcol dr rcol =>
      simp only [evalDef] at hne ⊢
      cases hl : evalDef s f dl with
      | error e =>
        have hee : e ≠ StoreErr.StorageError := by
          intro h; exact hne (by rw [hl, h])
        rw [ih f3 dl hle3 (by rw [hl]; intro h; exact hee (Except.error.inj h)), hl]
      | ok pl =>
        rw [ih f3 dl hle3 (by rw [hl]; intro h; cases h), hl]
        cases hr : evalDef s f dr with
        | error e =>
          have hee : e ≠ StoreErr.StorageError := by
            intro h; exact hne (by rw [hl, hr, h])
          rw [ih f3 dr hle3 (by rw [hr]; intro h; exact hee (Except.error.inj h)), hr]
        | ok pr =>
          rw [ih f3 dr hle3 (by rw [hr]; intro h; cases h), hr]

theorem lookup_of_viewLookup {s : Store} {m : String} {dm : VDef}
    (hv : viewLookup s m = some dm) :
    lookup s m = evalDef s (lookupFuel s) dm := by
  unfold lookup
  rw [hv]

theorem totalDefSize_setView_fresh (s : Store) {n : String} (d : VDef)
    (h : viewLookup s n = none) :
    totalDefSize (setView s n d) = defSize d + totalDefSize s := by
  unfold totalDefSize
  rw [views_setView_fresh s d h]
  rfl

theorem lookupFuel_le_setView_fresh (s : Store) {n : String} (d : VDef)
    (h : viewLookup s n = none) :
    lookupFuel s ≤ lookupFuel (setView s n d) := by
  unfold lookupFuel
  rw [views_setView_fresh s d h, totalDefSize_setView_fresh s d h]
  simp only [List.length_cons]
  omega

theorem lookup_setView_fresh {s : Store} {n m : String} (d0 : VDef)
    (hfresh : freshName s n) (hm : m ≠ n)
    (hne : lookup s m ≠ Except.error StoreErr.StorageError) :
    lookup (setView s n d0) m = lookup s m := by
  cases hv : viewLookup s m with
  | none =>
    unfold lookup
    rw [viewLookup_setView_ne s d0 hm, hv]
    rfl
  | some dm =>
    obtain ⟨p, hp, hpd⟩ := viewLookup_mem hv
    have hdm : defMentions n dm = false := hpd ▸ hfresh.2 p hp
    rw [lookup_of_viewLookup hv] at hne ⊢
    have h1 : lookup (setView s n d0) m =
        evalDef (setView s n d0) (lookupFuel (setView s n d0)) dm :=
      lookup_of_viewLookup (by rw [viewLookup_setView_ne s d0 hm, hv])
    rw [h1, evalDef_setView_fresh hfresh _ dm hdm]
    exact evalDef_mono _ _ dm (lookupFuel_le_setView_fresh s d0 hfresh.1) hne

theorem viewLookup_mem_full {s : Store} {m : String} {dm : VDef}
    (h : viewLookup s m = some dm) : (m, dm) ∈ s.views := by
  unfold viewLookup at h
  cases hf : s.views.find? (fun p => p.1 == m) with
  | none => rw [hf] at h; cases h
  | some p =>
    rw [hf] at h
    have hp1 : p.1 = m := by simpa using List.find?_some hf
    have hmem := List.mem_of_find?_eq_some hf
    have : p = (m, dm) := by
      cases h
      exact Prod.ext (by simpa using hp1) rfl
    rw [this] at hmem
    exact hmem

theorem two_views_length {s : Store} {m n : String} {dm dn : VDef}
    (hmn : m ≠ n) (hm : viewLookup s m = some dm)
    (hn : viewLookup s n = some dn) : 2 ≤ s.views.length := by
  have h1 := viewLookup_mem_full hm
  have h2 := viewLookup_mem_full hn
  match hv : s.views with
  | [] => rw [hv] at h1; cases h1
  | [x] =>
    rw [hv] at h1 h2
    simp only [List.mem_singleton] at h1 h2
    exact absurd (congrArg Prod.fst (h1.trans h2.symm)) hmn
  | _ :: _ :: _ => simp [List.length_cons]

theorem lookupFuel_setView_fresh (s : Store) {n : String} (d : VDef)
    (h : viewLookup s n = none) :
    lookupFuel (setView s n d) = lookupFuel s + defSize d + 1 := by
  unfold lookupFuel
  rw [views_setView_fresh s d h, totalDefSize_setView_fresh s d h]
  simp only [List.length_cons]
  omega

theorem evalDef_ofView {s : Store} {n : String} {d : VDef} (f : Nat)
    (h : viewLookup s n = some d) :
    evalDef s (f + 1) (VDef.ofView n) = evalDef s f d := by
  simp [evalDef, h]

theorem extract_ok_inv {s : Store} {name ty q : String} {p : Pattern} {s2 : Store}
    (h : extract s name ty q p = Except.ok s2) :
    p.rootType = ty ∧ ∃ qids, queryLookup s q = some qids ∧
      s2 = setView s name (VDef.memb ty (extractIds s ty qids p)) := by
  unfold extract at h
  split at h
  · cases h
  · rename_i hr
    have hty : p.rootType = ty := by simpa using hr
    cases hq : queryLookup s q with
    | none => rw [hq] at h; cases h
    | some qids =>
      rw [hq] at h
      exact ⟨hty, qids, rfl, (Except.ok.inj h).symm⟩

theorem assign_ok_sort_inv {s : Store} {name src col : String} {asc : Bool}
    {lim : Option Nat} {s2 : Store} (hns : name ≠ src)
    (h : assign s name src "sort" col asc lim = Except.ok s2) :
    ∃ d, viewLookup s src = some d ∧
      s2 = setView s name (VDef.sorted (VDef.ofView src) (stripPathType col) asc lim) := by
  unfold assign at h
  cases hv : viewLookup s src with
  | none => rw [hv] at h; cases h
  | some d =>
    rw [hv] at h
    have hb : (name == src) = false := by simp [hns]
    simp only [hb, Bool.false_eq_true, if_false] at h
    refine ⟨d, rfl, ?_⟩
    simpa using (Except.ok.inj h).symm

theorem assign_ok_group_inv {s : Store} {name src col : String} {asc : Bool}
    {lim : Option Nat} {s2 : Store} (hns : name ≠ src)
    (h : assign s name src "group" col asc lim = Except.ok s2) :
    ∃ d, viewLookup s src = some d ∧
      s2 = setView s name (VDef.grouped (VDef.ofView src) (stripPathType col)) := by
  unfold assign at h
  cases hv : viewLookup s src with
  | none => rw [hv] at h; cases h
  | some d =>
    rw [hv] at h
    have hb : (name == src) = false := by simp [hns]
    simp only [hb, Bool.false_eq_true, if_false] at h
    rw [show (("group" : String) == "sort") = false from rfl,
      show (("group" : String) == "group") = true from rfl] at h
    simp only [Bool.false_eq_true, if_false, if_true] at h
    refine ⟨d, rfl, ?_⟩
    simpa using (Except.ok.inj h).symm

theorem join_ok_inv {s : Store} {name l lcol r rcol : String} {s2 : Store}
    (hnl : name ≠ l) (hnr : name ≠ r)
    (h : join s name l lcol r rcol = Except.ok s2) :
    ∃ dl dr, viewLookup s l = some dl ∧ viewLookup s r = some dr ∧
      s2 = setView s name (VDef.joined (VDef.ofView l) lcol (VDef.ofView r) rcol) := by
  unfold join at h
  cases hl : viewLookup s l with
  | none => rw [hl] at h; cases h
  | some dl =>
    rw [hl] at h
    cases hr : viewLookup s r with
    | none => rw [hr] at h; cases h
    | some dr =>
      rw [hr] at h
      have hbl : (name == l) = false := by simp [hnl]
      have hbr : (name == r) = false := by simp [hnr]
      simp only [hbl, hbr, Bool.false_eq_true, if_false] at h
      refine ⟨dl, dr, rfl, rfl, ?_⟩
      simpa using (Except.ok.inj h).symm

theorem merge_pair_ok_inv {s : Store} {name a b : String} {s2 : Store}
    (h : merge s name [a, b] = Except.ok s2) :
    ∃ ty rowsA rowsB, lookup s a = Except.ok (ty, rowsA) ∧
      lookup s b = Except.ok (ty, rowsB) ∧
      s2 = setView s name (VDef.memb ty (mergeIds [(ty, rowsA), (ty, rowsB)])) := by
  unfold merge at h
  cases ha : lookup s a with
  | error e => rw [show lookupAll s [a, b] = Except.error e by simp [lookupAll, ha]] at h; cases h
  | ok pa =>
    cases hb : lookup s b with
    | error e =>
      rw [show lookupAll s [a, b] = Except.error e by simp [lookupAll, ha, hb]] at h
      cases h
    | ok pb =>
      rw [show lookupAll s [a, b] = Except.ok [pa, pb] by simp [lookupAll, ha, hb]] at h
      by_cases hty : pb.1 = pa.1
      · refine ⟨pa.1, pa.2, pb.2, rfl, by rw [← hty], ?_⟩
        have hall : (([pa, pb]).all (fun p => p.1 == pa.1)) = true := by
          simp [hty]
        rw [show pa = (pa.1, pa.2) from rfl] at h
        simp only [List.all_cons, List.all_nil, beq_self_eq_true, Bool.true_and,
          Bool.and_true, hty, beq_iff_eq, if_true, reduceIte] at h
        have h2 := Except.ok.inj h
        rw [show pb = (pb.1, pb.2) from rfl, hty] at h2
        exact h2.symm
      · exfalso
        have hall : (([pa, pb]).all (fun p => p.1 == pa.1)) = false := by
          simp [hty]
        rw [show pa = (pa.1, pa.2) from rfl] at h
        simp only [List.all_cons, List.all_nil, beq_self_eq_true, Bool.true_and,
          Bool.and_true, hty, beq_iff_eq, if_false, reduceIte] at h
        cases h

theorem removeView_ok_inv {s : Store} {n : String} {s2 : Store}
    (h : removeView s n = Except.ok s2) :
    s2.tables = s.tables ∧ s2.queries = s.queries ∧
      s2.views = s.views.filter (fun p => p.1 != n) := by
  unfold removeView at h
  cases hv : viewLookup s n with
  | none => rw [hv] at h; cases h
  | some d =>
    rw [hv] at h
    have := Except.ok.inj h
    rw [← this]
    exact ⟨rfl, rfl, rfl⟩

theorem evalDef_sorted_eq (s : Store) (f : Nat) (d : VDef) (col : String)
    (asc : Bool) (lim : Option Nat) :
    evalDef s (f + 1) (VDef.sorted d col asc lim) =
      match evalDef s f d with
      | Except.ok p => Except.ok (p.1, sortRows s.tables p.2 col asc lim)
      | Except.error e => Except.error e := rfl

theorem evalDef_grouped_eq (s : Store) (f : Nat) (d : VDef) (col : String) :
    evalDef s (f + 1) (VDef.grouped d col) =
      match evalDef s f d with
      | Except.ok p => Except.ok (p.1, groupRows s.tables p.2 col)
      | Except.error e => Except.error e := rfl

theorem evalDef_joined_eq (s : Store) (f : Nat) (dl : VDef) (lcol : String)
    (dr : VDef) (rcol : String) :
    evalDef s (f + 1) (VDef.joined dl lcol dr rcol) =
      match evalDef s f dl, evalDef s f dr with
      | Except.ok pl, Except.ok pr => Except.ok (pl.1, joinRows pl.2 lcol pr.2 rcol)
      | Except.error e, _ => Except.error e
      | Except.ok _, Except.error e => Except.error e := rfl

theorem evalDef_memb_eq (s : Store) (f : Nat) (ty : String) (ids : List String) :
    evalDef s (f + 1) (VDef.memb ty ids) =
      Except.ok (ty, membRows s.tables ty ids) := rfl

theorem fresh_ne_of_viewLookup {s : Store} {G V : String} {dV : VDef}
    (hfresh : freshName s G) (hdV : viewLookup s V = some dV) : V ≠ G := by
  intro h
  rw [h, hfresh.1] at hdV
  cases hdV

theorem mention_false_of_fresh {s : Store} {G V : String} {dV : VDef}
    (hfresh : freshName s G) (hdV : viewLookup s V = some dV) :
    defMentions G dV = false :=
  hfresh.2 (V, dV) (viewLookup_mem_full hdV)

theorem eval_source_of_fresh {s : Store} {G V : String} {dV : VDef} (d0 : VDef)
    {ty : String} {rows : List Row} (k : Nat)
    (hfresh : freshName s G) (hdV : viewLookup s V = some dV)
    (hV : lookup s V = Except.ok (ty, rows)) :
    evalDef (setView s G d0) (lookupFuel s + k) dV = Except.ok (ty, rows) := by
  have hev : evalDef s (lookupFuel s) dV = Except.ok (ty, rows) := by
    rw [← lookup_of_viewLookup hdV]; exact hV
  rw [evalDef_setView_fresh hfresh _ dV (mention_false_of_fresh hfresh hdV)]
  rw [evalDef_mono (lookupFuel s) (lookupFuel s + k) dV (by omega)
    (by rw [hev]; intro h; cases h)]
  exact hev

theorem lookup_setView_sorted {s : Store} {G V col : String} {asc : Bool}
    {lim : Option Nat} {dV : VDef} {ty : String} {rows : List Row}
    (hfresh : freshName s G) (hdV : viewLookup s V = some dV)
    (hV : lookup s V = Except.ok (ty, rows)) :
    lookup (setView s G (VDef.sorted (VDef.ofView V) col asc lim)) G =
      Except.ok (ty, sortRows s.tables rows col asc lim) := by
  have hVG : V ≠ G := fresh_ne_of_viewLookup hfresh hdV
  rw [lookup_of_viewLookup (viewLookup_setView_self s G _)]
  rw [lookupFuel_setView_fresh s _ hfresh.1]
  rw [show lookupFuel s + defSize (VDef.sorted (VDef.ofView V) col asc lim) + 1 =
    ((lookupFuel s + 1) + 1) + 1 from rfl]
  rw [evalDef_sorted_eq]
  rw [evalDef_ofView (lookupFuel s + 1)
    (by rw [viewLookup_setView_ne s _ hVG]; exact hdV)]
  rw [eval_source_of_fresh _ 1 hfresh hdV hV]
  rfl

theorem lookup_setView_grouped {s : Store} {G V col : String} {dV : VDef}
    {ty : String} {rows : List Row}
    (hfresh : freshName s G) (hdV : viewLookup s V = some dV)
    (hV : lookup s V = Except.ok (ty, rows)) :
    lookup (setView s G (VDef.grouped (VDef.ofView V) col)) G =
      Except.ok (ty, groupRows s.tables rows col) := by
  have hVG : V ≠ G := fresh_ne_of_viewLookup hfresh hdV
  rw [lookup_of_viewLookup (viewLookup_setView_self s G _)]
  rw [lookupFuel_setView_fresh s _ hfresh.1]
  rw [show lookupFuel s + defSize (VDef.grouped (VDef.ofView V) col) + 1 =
    ((lookupFuel s + 1) + 1) + 1 from rfl]
  rw [evalDef_grouped_eq]
  rw [evalDef_ofView (lookupFuel s + 1)
    (by rw [viewLookup_setView_ne s _ hVG]; exact hdV)]
  rw [eval_source_of_fresh _ 1 hfresh hdV hV]
  rfl

theorem lookup_setView_joined {s : Store} {G L R lcol rcol : String}
    {dL dR : VDef} {lty rty : String} {lrows rrows : List Row}
    (hfresh : freshName s G) (hdL : viewLookup s L = some dL)
    (hdR : viewLookup s R = some dR)
    (hL : lookup s L = Except.ok (lty, lrows))
    (hR : lookup s R = Except.ok (rty, rrows)) :
    lookup (setView s G (VDef.joined (VDef.ofView L) lcol (VDef.ofView R) rcol)) G =
      Except.ok (lty, joinRows lrows lcol rrows rcol) := by
  have hLG : L ≠ G := fresh_ne_of_viewLookup hfresh hdL
  have hRG : R ≠ G := fresh_ne_of_viewLookup hfresh hdR
  rw [lookup_of_viewLookup (viewLookup_setView_self s G _)]
  rw [lookupFuel_setView_fresh s _ hfresh.1]
  rw [show lookupFuel s + defSize (VDef.joined (VDef.ofView L) lcol (VDef.ofView R) rcol) + 1 =
    (((lookupFuel s + 1) + 1) + 1) + 1 from rfl]
  rw [evalDef_joined_eq]
  rw [evalDef_ofView ((lookupFuel s + 1) + 1)
    (by rw [viewLookup_setView_ne s _ hLG]; exact hdL)]
  rw [evalDef_ofView ((lookupFuel s + 1) + 1)
    (by rw [viewLookup_setView_ne s _ hRG]; exact hdR)]
  rw [show (lookupFuel s + 1) + 1 = lookupFuel s + 2 from rfl]
  rw [eval_source_of_fresh _ 2 hfresh hdL hL]
  rw [eval_source_of_fresh _ 2 hfresh hdR hR]

theorem count_sorted_over_memb {s0 : Store} {S U attr ty : String} {asc : Bool}
    {ids : List String} (hUS : S ≠ U)
    (hvS : viewLookup s0 S = some (VDef.sorted (VDef.ofView U) attr asc none))
    (hvU : viewLookup s0 U = some (VDef.memb ty ids)) :
    count s0 S = count s0 U := by
  have hlen : 2 ≤ s0.views.length := two_views_length hUS hvS hvU
  have hU : lookup s0 U = Except.ok (ty, membRows s0.tables ty ids) := by
    rw [lookup_of_viewLookup hvU]
    rw [show lookupFuel s0 = (s0.views.length + totalDefSize s0) + 1 from rfl]
    exact evalDef_memb_eq _ _ _ _
  have hF : lookupFuel s0 = (lookupFuel s0 - 3) + 3 := by
    unfold lookupFuel
    omega
  have hS : lookup s0 S =
      Except.ok (ty, sortRows s0.tables (membRows s0.tables ty ids) attr asc none) := by
    rw [lookup_of_viewLookup hvS, hF]
    rw [show (lookupFuel s0 - 3) + 3 = ((lookupFuel s0 - 3) + 2) + 1 from rfl]
    rw [evalDef_sorted_eq]
    rw [show (lookupFuel s0 - 3) + 2 = ((lookupFuel s0 - 3) + 1) + 1 from rfl]
    rw [evalDef_ofView _ hvU]
    rw [evalDef_memb_eq]
  unfold count
  rw [hS, hU]
  simp [Except.map, length_sortRows_none]

/-- C1.  Rebinding aliasing: a sort view S assigned over U keeps consulting
the current membership of U, so after U is re-extracted under the same name
with a different pattern, S and U have the same count. -/
theorem c1_rebinding_aliasing
    (s s1 s2 s3 : Store) (U S ty q sortcol : String) (p1 p2 : Pattern)
    (hUS : S ≠ U)
    (h1 : extract s U ty q p1 = Except.ok s1)
    (h2 : assign s1 S U "sort" sortcol true none = Except.ok s2)
    (h3 : extract s2 U ty q p2 = Except.ok s3) :
    count s3 S = count s3 U := by
  obtain ⟨hty2, qids2, hq2, hs3⟩ := extract_ok_inv h3
  obtain ⟨dU, hdU, hs2⟩ := assign_ok_sort_inv hUS h2
  subst hs2
  subst hs3
  apply count_sorted_over_memb hUS
  · rw [viewLookup_setView_ne _ _ hUS]
    exact viewLookup_setView_self _ _ _
  · exact viewLookup_setView_self _ _ _

/-! Concrete witness fixtures: a miniature bundle with two url observations
and two ipv4-addr observations, cached under query q1. -/

/-- Unwrap an operation result, falling back to the empty store. -/
def okD (e : Except StoreErr Store) : Store :=
  match e with
  | Except.ok s => s
  | Except.error _ => { tables := [], queries := [], views := [] }

def wObs1 : Obs := { id := "url--1", type := "url", props := [("value", vstr "http://a/page/1")] }

def wObs2 : Obs := { id := "url--2", type := "url", props := [("value", vstr "http://b/page/2")] }

def wIp1 : Obs := { id := "ip--1", type := "ipv4-addr", props := [("value", vstr "10.0.0.141")] }

def wIp2 : Obs := { id := "ip--2", type := "ipv4-addr", props := [("value", vstr "192.168.212.97")] }

def wStore0 : Store := { tables := [], queries := [], views := [] }

def wStore : Store := cache wStore0 "q1" [wObs1, wObs2, wIp1, wIp2]

/-- Pattern url:value LIKE %page/1% in compiled form. -/
def wPatLike : Pattern :=
  { rootType := "url"
    expr := PatternExpr.comp
      { prop := "value", negated := false, op := CompOp.likeOp
        rhs := CompRhs.val (vstr "%page/1%") } }

/-- Pattern url:value LIKE % in compiled form. -/
def wPatAll : Pattern :=
  { rootType := "url"
    expr := PatternExpr.comp
      { prop := "value", negated := false, op := CompOp.likeOp
        rhs := CompRhs.val (vstr "%") } }

def wC1s1 : Store := okD (extract wStore "urls" "url" "q1" wPatAll)

def wC1s2 : Store := okD (assign wC1s1 "sorted1" "urls" "sort" "value" true none)

def wC1s3 : Store := okD (extract wC1s2 "urls" "url" "q1" wPatLike)

/-- C1 witness: on the miniature bundle, rebinding urls from the match-all
pattern to the page/1 pattern leaves the sort view with the same count. -/
theorem c1_witness :
    extract wStore "urls" "url" "q1" wPatAll = Except.ok wC1s1 ∧
    assign wC1s1 "sorted1" "urls" "sort" "value" true none = Except.ok wC1s2 ∧
    extract wC1s2 "urls" "url" "q1" wPatLike = Except.ok wC1s3 ∧
    count wC1s3 "sorted1" = count wC1s3 "urls" :=
  ⟨by decide, by decide, by decide,
    c1_rebinding_aliasing wStore wC1s1 wC1s2 wC1s3 "urls" "sorted1" "url" "q1" "value"
      wPatAll wPatLike (by decide) (by decide) (by decide) (by decide)⟩

theorem lookup_memb_of_viewLookup {s : Store} {M ty : String} {ids : List String}
    (hv : viewLookup s M = some (VDef.memb ty ids)) :
    lookup s M = Except.ok (ty, membRows s.tables ty ids) := by
  rw [lookup_of_viewLookup hv,
    show lookupFuel s = (s.views.length + totalDefSize s) + 1 from rfl,
    evalDef_memb_eq]

theorem removeViews_preserves {M : String} :
    ∀ (zs : List String) (s1 s2 : Store),
      removeViews s1 zs = Except.ok s2 → (∀ z ∈ zs, z ≠ M) →
      s2.tables = s1.tables ∧ viewLookup s2 M = viewLookup s1 M := by
  intro zs
  induction zs with
  | nil =>
    intro s1 s2 h _
    have h2 : s1 = s2 := Except.ok.inj h
    rw [h2]
    exact ⟨rfl, rfl⟩
  | cons z zs ih =>
    intro s1 s2 h hz
    unfold removeViews at h
    cases hr : removeView s1 z with
    | error e => rw [hr] at h; cases h
    | ok sMid =>
      rw [hr] at h
      obtain ⟨ht, hq, hvw⟩ := removeView_ok_inv hr
      have hMz : M ≠ z := fun he => (hz z (List.mem_cons_self z zs)) he.symm
      have hvMid : viewLookup sMid M = viewLookup s1 M := by
        unfold viewLookup
        rw [hvw, find?_fst_filter_ne hMz]
      obtain ⟨ht2, hv2⟩ := ih sMid s2 h (fun w hw => hz w (List.mem_cons_of_mem z hw))
      exact ⟨ht2.trans ht, hv2.trans hvMid⟩

/-- C2.  Merge snapshotting: a merged view keeps its membership snapshot,
so removing any non-empty subset of its source views leaves both its lookup
and every values projection unchanged. -/
theorem c2_merge_snapshot
    (s s1 : Store) (M X Y : String)
    (hMX : M ≠ X) (hMY : M ≠ Y)
    (hm : merge s M [X, Y] = Except.ok s1) :
    ∀ (zs : List String) (s2 : Store), zs ≠ [] → (∀ z ∈ zs, z = X ∨ z = Y) →
      removeViews s1 zs = Except.ok s2 →
      lookup s2 M = lookup s1 M ∧ ∀ p, values s2 p M = values s1 p M := by
  obtain ⟨ty, rowsA, rowsB, hA, hB, hs1⟩ := merge_pair_ok_inv hm
  intro zs s2 hne hsub hrm
  have hzM : ∀ z ∈ zs, z ≠ M := by
    intro z hzmem he
    cases hsub z hzmem with
    | inl h2 => exact hMX (by rw [← he, h2])
    | inr h2 => exact hMY (by rw [← he, h2])
  obtain ⟨htab, hview⟩ := removeViews_preserves zs s1 s2 hrm hzM
  have hv1 : viewLookup s1 M =
      some (VDef.memb ty (mergeIds [(ty, rowsA), (ty, rowsB)])) := by
    rw [hs1]
    exact viewLookup_setView_self _ _ _
  have hv2 : viewLookup s2 M =
      some (VDef.memb ty (mergeIds [(ty, rowsA), (ty, rowsB)])) := hview.trans hv1
  have hl1 := lookup_memb_of_viewLookup hv1
  have hl2 := lookup_memb_of_viewLookup hv2
  constructor
  · rw [hl1, hl2, htab]
  · intro p
    unfold values
    rw [hl1, hl2, htab]

def wC2a : Store := okD (extract wStore "u1" "url" "q1" wPatLike)

def wC2b : Store := okD (extract wC2a "u2" "url" "q1" wPatAll)

def wC2m : Store := okD (merge wC2b "m" ["u1", "u2"])

def wC2r : Store := okD (removeViews wC2m ["u1"])

/-- C2 witness: on the miniature bundle, removing the first merge source
leaves the merged view intact. -/
theorem c2_witness :
    merge wC2b "m" ["u1", "u2"] = Except.ok wC2m ∧
    removeViews wC2m ["u1"] = Except.ok wC2r ∧
    lookup wC2r "m" = lookup wC2m "m" ∧
    values wC2r "url:value" "m" = values wC2m "url:value" "m" := by
  have h := c2_merge_snapshot wC2b wC2m "m" "u1" "u2" (by decide) (by decide)
    (by decide) ["u1"] wC2r (by decide) (by decide) (by decide)
  exact ⟨by decide, by decide, h.1, h.2 "url:value"⟩

/-- The id column of a row, as a string. -/
def idStr (r : Row) : String := valueToStr (rowGet r "id")

/-- Rows that can be recovered from the type table through their own id:
looking their id up in the table finds exactly them.  This holds for the
rows of every membership-backed view over a table with unique ids, and is
what gives the membership snapshot of a merge its meaning. -/
def rowsFromTable (ts : Tables) (ty : String) (rows : List Row) : Prop :=
  ∀ r ∈ rows, findRowById (tableOf ts ty) (idStr r) = some r

instance (ts : Tables) (ty : String) (rows : List Row) :
    Decidable (rowsFromTable ts ty rows) := by
  unfold rowsFromTable
  infer_instance

theorem mem_membRows {ts : Tables} {ty : String} {ids : List String} {r : Row} :
    r ∈ membRows ts ty ids ↔
      ∃ i ∈ ids, findRowById (tableOf ts ty) i = some r := by
  unfold membRows
  exact List.mem_filterMap

theorem mem_values_merge {ts : Tables} {ty : String} {rowsA rowsB : List Row}
    {proj : Row → Value}
    (hA : rowsFromTable ts ty rowsA) (hB : rowsFromTable ts ty rowsB)
    (v : Value) :
    v ∈ (membRows ts ty (mergeIds [(ty, rowsA), (ty, rowsB)])).map proj ↔
      v ∈ rowsA.map proj ∨ v ∈ rowsB.map proj := by
  have hmerge : ∀ i, i ∈ mergeIds [(ty, rowsA), (ty, rowsB)] ↔
      (∃ r ∈ rowsA, idStr r = i) ∨ ∃ r ∈ rowsB, idStr r = i := by
    intro i
    unfold mergeIds idStr
    simp [List.mem_dedup, List.mem_append, List.mem_map]
  constructor
  · intro hv
    obtain ⟨r, hrmem, hproj⟩ := List.mem_map.mp hv
    obtain ⟨i, hi, hfind⟩ := mem_membRows.mp hrmem
    cases (hmerge i).mp hi with
    | inl hcase =>
      obtain ⟨r0, hr0, hid⟩ := hcase
      have := hA r0 hr0
      rw [hid, hfind] at this
      exact Or.inl (List.mem_map.mpr ⟨r0, hr0, by rw [← Option.some.inj this, hproj]⟩)
    | inr hcase =>
      obtain ⟨r0, hr0, hid⟩ := hcase
      have := hB r0 hr0
      rw [hid, hfind] at this
      exact Or.inr (List.mem_map.mpr ⟨r0, hr0, by rw [← Option.some.inj this, hproj]⟩)
  · intro hv
    cases hv with
    | inl hcase =>
      obtain ⟨r0, hr0, hproj⟩ := List.mem_map.mp hcase
      refine List.mem_map.mpr ⟨r0, ?_, hproj⟩
      exact mem_membRows.mpr ⟨idStr r0, (hmerge _).mpr (Or.inl ⟨r0, hr0, rfl⟩), hA r0 hr0⟩
    | inr hcase =>
      obtain ⟨r0, hr0, hproj⟩ := List.mem_map.mp hcase
      refine List.mem_map.mpr ⟨r0, ?_, hproj⟩
      exact mem_membRows.mpr ⟨idStr r0, (hmerge _).mpr (Or.inr ⟨r0, hr0, rfl⟩), hB r0 hr0⟩

theorem values_setView_fresh {s : Store} {n m : String} (d0 : VDef) (pth : String)
    (hfresh : freshName s n) (hm : m ≠ n)
    (hne : lookup s m ≠ Except.error StoreErr.StorageError) :
    values (setView s n d0) pth m = values s pth m := by
  unfold values
  rw [lookup_setView_fresh d0 hfresh hm hne]
  rfl

theorem rowsFromTable_membRows (ts : Tables) (ty : String) (ids : List String) :
    rowsFromTable ts ty (membRows ts ty ids) := by
  intro r hr
  obtain ⟨i, _, hfind⟩ := mem_membRows.mp hr
  have hid : rowGet r "id" = vstr i := by
    have := List.find?_some hfind
    simpa using this
  unfold idStr
  rw [hid]
  simpa [valueToStr, vstr] using hfind

theorem mem_extractIds {s : Store} {ty : String} {qids : List String}
    {p : Pattern} {i : String} :
    i ∈ extractIds s ty qids p ↔
      i ∈ qids ∧
        (match findRowById (tableOf s.tables ty) i with
         | some r => evalPattern s.tables p r
         | none => false) = true := by
  unfold extractIds
  simp [List.mem_dedup, List.mem_filter]

/-- The union half of the merge claim, over any two views whose rows are
recoverable from their type table by id. -/
theorem c3aux_union
    (s s1 : Store) (M A B p ty : String) (rowsA rowsB : List Row)
    (hfresh : freshName s M) (hMA : A ≠ M) (hMB : B ≠ M)
    (hA : lookup s A = Except.ok (ty, rowsA))
    (hB : lookup s B = Except.ok (ty, rowsB))
    (hTA : rowsFromTable s.tables ty rowsA)
    (hTB : rowsFromTable s.tables ty rowsB)
    (hm : merge s M [A, B] = Except.ok s1) :
    ∃ vm va vb, values s1 p M = Except.ok vm ∧ values s1 p A = Except.ok va ∧
      values s1 p B = Except.ok vb ∧ ∀ v, v ∈ vm ↔ v ∈ va ∨ v ∈ vb := by
  obtain ⟨ty2, rowsA2, rowsB2, hA2, hB2, hs1⟩ := merge_pair_ok_inv hm
  rw [hA] at hA2
  rw [hB] at hB2
  have hty : ty2 = ty := (Prod.mk.injEq _ _ _ _ |>.mp (Except.ok.inj hA2.symm)).1
  have hra : rowsA2 = rowsA := by
    have := (Prod.mk.injEq _ _ _ _ |>.mp (Except.ok.inj hA2.symm)).2
    exact this
  have hrb : rowsB2 = rowsB := by
    have := (Prod.mk.injEq _ _ _ _ |>.mp (Except.ok.inj hB2.symm)).2
    exact this
  rw [hty, hra, hrb] at hs1
  subst hs1
  set proj := fun r => projectPath s.tables r (stripPathType p) with hproj
  have hvm : values (setView s M (VDef.memb ty (mergeIds [(ty, rowsA), (ty, rowsB)]))) p M =
      Except.ok ((membRows s.tables ty (mergeIds [(ty, rowsA), (ty, rowsB)])).map proj) := by
    unfold values
    rw [lookup_memb_of_viewLookup (viewLookup_setView_self _ _ _), tables_setView]
    rfl
  have hsa : lookup s A ≠ Except.error StoreErr.StorageError := by
    rw [hA]; intro h; cases h
  have hsb : lookup s B ≠ Except.error StoreErr.StorageError := by
    rw [hB]; intro h; cases h
  have hva : values (setView s M (VDef.memb ty (mergeIds [(ty, rowsA), (ty, rowsB)]))) p A =
      Except.ok (rowsA.map proj) := by
    rw [values_setView_fresh _ p hfresh hMA hsa]
    unfold values
    rw [hA]
    rfl
  have hvb : values (setView s M (VDef.memb ty (mergeIds [(ty, rowsA), (ty, rowsB)]))) p B =
      Except.ok (rowsB.map proj) := by
    rw [values_setView_fresh _ p hfresh hMB hsb]
    unfold values
    rw [hB]
    rfl
  exact ⟨_, _, _, hvm, hva, hvb, mem_values_merge hTA hTB⟩

/-- NOT-negation of one comparison of the pattern language. -/
def compNeg (c : Comparison) : Comparison :=
  { c with negated := !c.negated }

theorem evalComp_neg (ts : Tables) (r : Row) (c : Comparison) :
    evalComp ts r (compNeg c) = !(evalComp ts r c) := by
  unfold evalComp compNeg
  cases hneg : c.negated <;> simp

theorem evalPattern_comp_neg (ts : Tables) (ty : String) (r : Row)
    (c : Comparison) :
    evalPattern ts { rootType := ty, expr := PatternExpr.comp (compNeg c) } r =
      !(evalPattern ts { rootType := ty, expr := PatternExpr.comp c } r) := by
  unfold evalPattern evalExpr
  exact evalComp_neg ts r c

theorem mem_table_of_membRows {ts : Tables} {ty : String} {ids : List String}
    {r : Row} (hr : r ∈ membRows ts ty ids) : r ∈ tableOf ts ty := by
  obtain ⟨i, _, hfind⟩ := mem_membRows.mp hr
  exact List.mem_of_find?_eq_some hfind

/-- The totality half of the merge claim: a pattern extract and the extract
of its NOT-negation merge to a view covering the whole type table. -/
theorem c3aux_total
    (s sA sB s1 : Store) (A B M ty q p : String) (c : Comparison)
    (qids : List String)
    (hAB : A ≠ B) (hMA : A ≠ M) (hMB : B ≠ M) (hMty : ty ≠ M)
    (hq : queryLookup s q = some qids)
    (hA : extract s A ty q { rootType := ty, expr := PatternExpr.comp c } =
      Except.ok sA)
    (hB : extract sA B ty q
      { rootType := ty, expr := PatternExpr.comp (compNeg c) } = Except.ok sB)
    (hfresh : freshName sB M)
    (htw : rowsFromTable s.tables ty (tableOf s.tables ty))
    (hcov : ∀ r ∈ tableOf s.tables ty, idStr r ∈ qids)
    (htbl : lookup sB ty = Except.ok (ty, tableOf s.tables ty))
    (hm : merge sB M [A, B] = Except.ok s1) :
    ∃ vm vt, values s1 p M = Except.ok vm ∧ values s1 p ty = Except.ok vt ∧
      ∀ v, v ∈ vm ↔ v ∈ vt := by
  obtain ⟨-, qidsA, hqA, hsA⟩ := extract_ok_inv hA
  rw [hq] at hqA
  rw [← Option.some.inj hqA] at hsA
  subst hsA
  obtain ⟨-, qidsB, hqB, hsB⟩ := extract_ok_inv hB
  rw [show queryLookup (setView s A (VDef.memb ty
    (extractIds s ty qids { rootType := ty, expr := PatternExpr.comp c }))) q =
    queryLookup s q from rfl, hq] at hqB
  rw [← Option.some.inj hqB] at hsB
  subst hsB
  set cPat : Pattern := { rootType := ty, expr := PatternExpr.comp c } with hcPat
  set nPat : Pattern := { rootType := ty, expr := PatternExpr.comp (compNeg c) }
    with hnPat
  set sA2 : Store := setView s A (VDef.memb ty (extractIds s ty qids cPat))
    with hsA2
  set idsA : List String := extractIds s ty qids cPat with hidsA
  set idsB : List String := extractIds sA2 ty qids nPat with hidsB
  set sB2 : Store := setView sA2 B (VDef.memb ty idsB) with hsB2
  obtain ⟨ty2, rowsA, rowsB, hA2, hB2, hs1⟩ := merge_pair_ok_inv hm
  have hvA : viewLookup sB2 A = some (VDef.memb ty idsA) := by
    rw [hsB2, viewLookup_setView_ne _ _ hAB, hsA2]
    exact viewLookup_setView_self _ _ _
  have hvB : viewLookup sB2 B = some (VDef.memb ty idsB) := by
    rw [hsB2]
    exact viewLookup_setView_self _ _ _
  have hlA : lookup sB2 A = Except.ok (ty, membRows s.tables ty idsA) := by
    rw [lookup_memb_of_viewLookup hvA, hsB2, tables_setView, hsA2, tables_setView]
  have hlB : lookup sB2 B = Except.ok (ty, membRows s.tables ty idsB) := by
    rw [lookup_memb_of_viewLookup hvB, hsB2, tables_setView, hsA2, tables_setView]
  rw [hlA] at hA2
  rw [hlB] at hB2
  have hty2 : ty2 = ty := (Prod.mk.injEq _ _ _ _ |>.mp (Except.ok.inj hA2.symm)).1
  have hra : rowsA = membRows s.tables ty idsA := by
    have := (Prod.mk.injEq _ _ _ _ |>.mp (Except.ok.inj hA2.symm)).2
    exact this
  have hrb : rowsB = membRows s.tables ty idsB := by
    have := (Prod.mk.injEq _ _ _ _ |>.mp (Except.ok.inj hB2.symm)).2
    exact this
  rw [hty2, hra, hrb] at hs1
  subst hs1
  set idsM : List String :=
    mergeIds [(ty, membRows s.tables ty idsA), (ty, membRows s.tables ty idsB)]
    with hidsM
  set proj := fun r => projectPath s.tables r (stripPathType p) with hprojDef
  have hvm : values (setView sB2 M (VDef.memb ty idsM)) p M =
      Except.ok ((membRows s.tables ty idsM).map proj) := by
    unfold values
    rw [lookup_memb_of_viewLookup (viewLookup_setView_self _ _ _), tables_setView,
      hsB2, tables_setView, hsA2, tables_setView]
    rfl
  have hvt : values (setView sB2 M (VDef.memb ty idsM)) p ty =
      Except.ok ((tableOf s.tables ty).map proj) := by
    rw [values_setView_fresh _ p hfresh hMty (by rw [htbl]; intro h; cases h)]
    unfold values
    rw [htbl, hsB2, tables_setView, hsA2, tables_setView]
    rfl
  refine ⟨_, _, hvm, hvt, ?_⟩
  intro v
  rw [show (membRows s.tables ty idsM).map proj =
    (membRows s.tables ty (mergeIds [(ty, membRows s.tables ty idsA),
      (ty, membRows s.tables ty idsB)])).map proj from rfl]
  rw [mem_values_merge (rowsFromTable_membRows _ _ _) (rowsFromTable_membRows _ _ _) v]
  constructor
  · intro hv
    cases hv with
    | inl hcase =>
      obtain ⟨r, hr, hpr⟩ := List.mem_map.mp hcase
      exact List.mem_map.mpr ⟨r, mem_table_of_membRows hr, hpr⟩
    | inr hcase =>
      obtain ⟨r, hr, hpr⟩ := List.mem_map.mp hcase
      exact List.mem_map.mpr ⟨r, mem_table_of_membRows hr, hpr⟩
  · intro hv
    obtain ⟨r, hr, hpr⟩ := List.mem_map.mp hv
    have hfind : findRowById (tableOf s.tables ty) (idStr r) = some r := htw r hr
    have hqmem : idStr r ∈ qids := hcov r hr
    cases heval : evalPattern s.tables cPat r with
    | true =>
      refine Or.inl (List.mem_map.mpr ⟨r, ?_, hpr⟩)
      refine mem_membRows.mpr ⟨idStr r, ?_, hfind⟩
      rw [hidsA]
      exact mem_extractIds.mpr ⟨hqmem, by rw [hfind]; exact heval⟩
    | false =>
      refine Or.inr (List.mem_map.mpr ⟨r, ?_, hpr⟩)
      refine mem_membRows.mpr ⟨idStr r, ?_, hfind⟩
      rw [hidsB]
      refine mem_extractIds.mpr ⟨hqmem, ?_⟩
      rw [show tableOf sA2.tables ty = tableOf s.tables ty from rfl, hfind]
      show evalPattern s.tables nPat r = true
      rw [hnPat, evalPattern_comp_neg, ← hcPat, heval]
      rfl

/-- C3.  Merge is membership union: for membership-bearing views A and B of
one SCO type, values of any path over merge(M, [A, B]) equal the union of
the values over A and over B as sets; and when A and B are extracted with a
comparison pattern and its NOT-negation over a query covering the type
table, the merged values cover the whole type table. -/
theorem c3_merge_union :
    (∀ (s s1 : Store) (M A B p ty : String) (rowsA rowsB : List Row),
      freshName s M → A ≠ M → B ≠ M →
      lookup s A = Except.ok (ty, rowsA) → lookup s B = Except.ok (ty, rowsB) →
      rowsFromTable s.tables ty rowsA → rowsFromTable s.tables ty rowsB →
      merge s M [A, B] = Except.ok s1 →
      ∃ vm va vb, values s1 p M = Except.ok vm ∧ values s1 p A = Except.ok va ∧
        values s1 p B = Except.ok vb ∧ ∀ v, v ∈ vm ↔ v ∈ va ∨ v ∈ vb) ∧
    (∀ (s sA sB s1 : Store) (A B M ty q p : String) (c : Comparison)
        (qids : List String),
      A ≠ B → A ≠ M → B ≠ M → ty ≠ M →
      queryLookup s q = some qids →
      extract s A ty q { rootType := ty, expr := PatternExpr.comp c } =
        Except.ok sA →
      extract sA B ty q { rootType := ty, expr := PatternExpr.comp (compNeg c) } =
        Except.ok sB →
      freshName sB M →
      rowsFromTable s.tables ty (tableOf s.tables ty) →
      (∀ r ∈ tableOf s.tables ty, idStr r ∈ qids) →
      lookup sB ty = Except.ok (ty, tableOf s.tables ty) →
      merge sB M [A, B] = Except.ok s1 →
      ∃ vm vt, values s1 p M = Except.ok vm ∧ values s1 p ty = Except.ok vt ∧
        ∀ v, v ∈ vm ↔ v ∈ vt) := by
  constructor
  · intro s s1 M A B p ty rowsA rowsB hfresh hMA hMB hA hB hTA hTB hm
    exact c3aux_union s s1 M A B p ty rowsA rowsB hfresh hMA hMB hA hB hTA hTB hm
  · intro s sA sB s1 A B M ty q p c qids hAB hMA hMB hMty hq hA hB hfresh htw hcov htbl hm
    exact c3aux_total s sA sB s1 A B M ty q p c qids hAB hMA hMB hMty hq hA hB hfresh
      htw hcov htbl hm

/-- The row list of a lookup result, empty on error. -/
def okRows (e : Except StoreErr (String × List Row)) : List Row :=
  match e with
  | Except.ok p => p.2
  | Except.error _ => []

def wC3rowsA : List Row := okRows (lookup wC2b "u1")

def wC3rowsB : List Row := okRows (lookup wC2b "u2")

/-- C3 witness: on the miniature bundle, merging the page/1 view and the
match-all view gives values equal to the union of the two value sets. -/
theorem c3_witness :
    freshName wC2b "m" ∧
    lookup wC2b "u1" = Except.ok ("url", wC3rowsA) ∧
    lookup wC2b "u2" = Except.ok ("url", wC3rowsB) ∧
    rowsFromTable wC2b.tables "url" wC3rowsA ∧
    rowsFromTable wC2b.tables "url" wC3rowsB ∧
    merge wC2b "m" ["u1", "u2"] = Except.ok wC2m ∧
    (∃ vm va vb, values wC2m "url:value" "m" = Except.ok vm ∧
      values wC2m "url:value" "u1" = Except.ok va ∧
      values wC2m "url:value" "u2" = Except.ok vb ∧
      ∀ v, v ∈ vm ↔ v ∈ va ∨ v ∈ vb) :=
  ⟨by decide, by decide, by decide, by decide, by decide, by decide,
    c3_merge_union.1 wC2b wC2m "m" "u1" "u2" "url:value" "url" wC3rowsA wC3rowsB
      (by decide) (by decide) (by decide) (by decide) (by decide) (by decide)
      (by decide) (by decide)⟩

/-- The multiplicity an observation brings with it: its number_observed
property, defaulted to 1. -/
def obsCount (o : Obs) : Int :=
  valueToInt (rowGet (obsRow o) "number_observed")

theorem rowGet_rowSet_self (r : Row) (c : String) (v : Value) :
    rowGet (rowSet r c v) c = v := by
  simp [rowGet, rowSet, List.find?_cons]

theorem rowGet_rowSet_ne (r : Row) {c c2 : String} (v : Value) (h : c2 ≠ c) :
    rowGet (rowSet r c v) c2 = rowGet r c2 := by
  unfold rowGet rowSet
  rw [List.find?_cons_of_neg _ (by simp [Ne.symm h]), find?_fst_filter_ne h]

theorem rowGet_obsRow_id (o : Obs) : rowGet (obsRow o) "id" = vstr o.id := rfl

/-- The protected columns id, type and number_observed pass through the
property fold of mergeRow untouched. -/
theorem rowGet_mergeFold (props : List (String × Value)) (c : String)
    (hc : c = "number_observed" ∨ c = "id" ∨ c = "type") :
    ∀ acc : Row,
      rowGet (props.foldl (fun acc p =>
        if p.1 == "number_observed" || p.1 == "id" || p.1 == "type" then acc
        else if p.2 == vnull then acc
        else rowSet acc p.1 p.2) acc) c = rowGet acc c := by
  induction props with
  | nil => intro acc; rfl
  | cons p ps ih =>
    intro acc
    simp only [List.foldl_cons]
    by_cases h1 : (p.1 == "number_observed" || p.1 == "id" || p.1 == "type") = true
    · rw [if_pos h1, ih]
    · rw [if_neg h1]
      by_cases h2 : (p.2 == vnull) = true
      · rw [if_pos h2, ih]
      · rw [if_neg h2, ih]
        have hp1 : c ≠ p.1 := by
          intro he
          apply h1
          rcases hc with h | h | h <;> simp [← he, h]
        exact rowGet_rowSet_ne acc p.2 hp1

theorem rowGet_mergeRow_id (r : Row) (o : Obs) :
    rowGet (mergeRow r o) "id" = rowGet r "id" := by
  unfold mergeRow
  rw [rowGet_mergeFold _ _ (Or.inr (Or.inl rfl))]
  exact rowGet_rowSet_ne r _ (by decide)

theorem rowGet_mergeRow_no (r : Row) (o : Obs) :
    rowGet (mergeRow r o) "number_observed" =
      vint (valueToInt (rowGet r "number_observed") + obsCount o) := by
  unfold mergeRow
  rw [rowGet_mergeFold _ _ (Or.inl rfl)]
  exact rowGet_rowSet_self r _ _

theorem tableOf_setTable_self (ts : Tables) (ty : String) (t : Table) :
    tableOf (setTable ts ty t) ty = t := by
  simp [tableOf, setTable, List.find?_cons]

theorem queryLookup_addQueryIds_self (s : Store) (q : String) (ids : List String) :
    queryLookup (addQueryIds s q ids) q =
      some (((queryLookup s q).getD [] ++ ids).dedup) := by
  simp [queryLookup, addQueryIds, List.find?_cons]

theorem queryLookup_addQueryIds_ne (s : Store) {q q2 : String} (ids : List String)
    (h : q ≠ q2) :
    queryLookup (addQueryIds s q2 ids) q = queryLookup s q := by
  unfold queryLookup addQueryIds
  rw [List.find?_cons_of_neg _ (by simp [Ne.symm h]), find?_fst_filter_ne h]

/-- Record updates that only touch the tables leave the query table as it
was. -/
theorem queryLookup_tablesUpdate (s : Store) (ts : Tables) (q : String) :
    queryLookup { s with tables := ts } q = queryLookup s q := rfl

theorem queryLookup_cache_self (s : Store) (q : String) (o : Obs) :
    queryLookup (cache s q [o]) q =
      some (((queryLookup s q).getD [] ++ [o.id]).dedup) := by
  show queryLookup (addQueryIds { s with
    tables := setTable s.tables o.type (upsertObs (tableOf s.tables o.type) o) } q [o.id]) q = _
  rw [queryLookup_addQueryIds_self, queryLookup_tablesUpdate]

theorem queryLookup_cache_ne (s : Store) {q q2 : String} (o : Obs) (h : q ≠ q2) :
    queryLookup (cache s q2 [o]) q = queryLookup s q := by
  show queryLookup (addQueryIds { s with
    tables := setTable s.tables o.type (upsertObs (tableOf s.tables o.type) o) } q2 [o.id]) q = _
  rw [queryLookup_addQueryIds_ne _ _ h, queryLookup_tablesUpdate]

/-- C4.  Duplicate-id summation: caching the same observation id a second
time under a distinct query id leaves exactly one row for that id, with
number_observed summed, and extracting one pattern from either query id
yields the same values.  The cache operation is total in the model, so
re-ingestion never raises. -/
theorem c4_duplicate_id
    (s0 : Store) (q1 q2 A B ty pth : String) (o1 o2 : Obs) (p : Pattern)
    (hid : o2.id = o1.id) (hty1 : o1.type = ty) (hty2 : o2.type = ty)
    (hq : q1 ≠ q2)
    (hfresh : findRowById (tableOf s0.tables ty) o1.id = none)
    (hq1 : queryLookup s0 q1 = none)
    (hq2 : queryLookup (cache s0 q1 [o1]) q2 = none) :
    ((tableOf (cache (cache s0 q1 [o1]) q2 [o2]).tables ty).filter
        (fun r => rowGet r "id" == vstr o1.id)).length = 1 ∧
    (∀ r ∈ tableOf (cache (cache s0 q1 [o1]) q2 [o2]).tables ty,
      rowGet r "id" = vstr o1.id →
      rowGet r "number_observed" = vint (obsCount o1 + obsCount o2)) ∧
    (∀ (sX sY : Store),
      extract (cache (cache s0 q1 [o1]) q2 [o2]) A ty q1 p = Except.ok sX →
      extract (cache (cache s0 q1 [o1]) q2 [o2]) B ty q2 p = Except.ok sY →
      values sX pth A = values sY pth B) := by
  have hpred0 : ∀ r ∈ tableOf s0.tables ty, (rowGet r "id" == vstr o1.id) = false := by
    intro r hr
    have := List.find?_eq_none.mp hfresh r hr
    simpa using this
  have ht0 : tableOf (cache s0 q1 [o1]).tables ty =
      tableOf s0.tables ty ++ [obsRow o1] := by
    show tableOf (setTable s0.tables o1.type
      (upsertObs (tableOf s0.tables o1.type) o1)) ty = _
    rw [hty1, tableOf_setTable_self]
    unfold upsertObs
    rw [hfresh]
  have hpredrow : (rowGet (obsRow o1) "id" == vstr o1.id) = true := by
    rw [rowGet_obsRow_id]
    simp
  have ht2 : tableOf (cache (cache s0 q1 [o1]) q2 [o2]).tables ty =
      tableOf s0.tables ty ++ [mergeRow (obsRow o1) o2] := by
    show tableOf (setTable (cache s0 q1 [o1]).tables o2.type
      (upsertObs (tableOf (cache s0 q1 [o1]).tables o2.type) o2)) ty = _
    rw [hty2, tableOf_setTable_self, ht0]
    unfold upsertObs
    have hfind : findRowById (tableOf s0.tables ty ++ [obsRow o1]) o2.id =
        some (obsRow o1) := by
      unfold findRowById
      rw [hid, List.find?_append]
      rw [show (tableOf s0.tables ty).find? (fun r => rowGet r "id" == vstr o1.id) =
        none from hfresh]
      simp [List.find?_cons, hpredrow]
    simp only [hfind]
    have hmap : (tableOf s0.tables ty).map
        (fun r => if rowGet r "id" == vstr o2.id then mergeRow r o2 else r) =
        tableOf s0.tables ty := by
      have h2 : ∀ r ∈ tableOf s0.tables ty,
          (if rowGet r "id" == vstr o2.id then mergeRow r o2 else r) = id r := by
        intro r hr
        rw [hid, if_neg (by simp [hpred0 r hr])]
        rfl
      rw [List.map_congr_left h2, List.map_id]
    rw [List.map_append, hmap, List.map_cons, List.map_nil, hid, if_pos hpredrow]
  refine ⟨?_, ?_, ?_⟩
  · rw [ht2, List.filter_append]
    rw [List.filter_eq_nil_iff.mpr (fun r hr => by simp [hpred0 r hr])]
    have hpredm : (rowGet (mergeRow (obsRow o1) o2) "id" == vstr o1.id) = true := by
      rw [rowGet_mergeRow_id, rowGet_obsRow_id]
      simp
    simp [List.filter_cons, hpredm]
  · intro r hr hrid
    rw [ht2] at hr
    cases List.mem_append.mp hr with
    | inl hcase =>
      exfalso
      have := hpred0 r hcase
      rw [hrid] at this
      simp at this
    | inr hcase =>
      have hr2 : r = mergeRow (obsRow o1) o2 := by simpa using hcase
      rw [hr2, rowGet_mergeRow_no]
      rfl
  · intro sX sY hX hY
    have hq1l : queryLookup (cache s0 q1 [o1]) q1 = some [o1.id] := by
      rw [queryLookup_cache_self, hq1]
      simp
    have hq2l : queryLookup (cache (cache s0 q1 [o1]) q2 [o2]) q2 = some [o2.id] := by
      rw [queryLookup_cache_self, hq2]
      simp
    have hq1l2 : queryLookup (cache (cache s0 q1 [o1]) q2 [o2]) q1 = some [o1.id] := by
      rw [queryLookup_cache_ne _ _ hq]
      exact hq1l
    obtain ⟨-, qidsX, hqX, hsX⟩ := extract_ok_inv hX
    obtain ⟨-, qidsY, hqY, hsY⟩ := extract_ok_inv hY
    rw [hq1l2] at hqX
    rw [hq2l] at hqY
    rw [← Option.some.inj hqX] at hsX
    rw [← Option.some.inj hqY, hid] at hsY
    subst hsX
    subst hsY
    unfold values
    rw [lookup_memb_of_viewLookup (viewLookup_setView_self _ _ _)]
    rw [lookup_memb_of_viewLookup (viewLookup_setView_self _ _ _)]
    simp only [tables_setView]

def wC4o1 : Obs :=
  { id := "url--9", type := "url"
    props := [("value", vstr "http://x/page/1"), ("number_observed", vint 3)] }

def wC4o2 : Obs :=
  { id := "url--9", type := "url"
    props := [("value", vstr "http://x/page/1"), ("number_observed", vint 2)] }

def wC4s2 : Store := cache (cache wStore0 "qa" [wC4o1]) "qb" [wC4o2]

def wC4sX : Store := okD (extract wC4s2 "va" "url" "qa" wPatAll)

def wC4sY : Store := okD (extract wC4s2 "vb" "url" "qb" wPatAll)

/-- C4 witness: caching the same id under qa with count 3 and under qb with
count 2 leaves one row with number_observed 5, and the two extracts agree. -/
theorem c4_witness :
    ((tableOf wC4s2.tables "url").filter
      (fun r => rowGet r "id" == vstr "url--9")).length = 1 ∧
    (tableOf wC4s2.tables "url").map (fun r => rowGet r "number_observed") =
      [vint 5] ∧
    values wC4sX "url:value" "va" = values wC4sY "url:value" "vb" := by
  have h := c4_duplicate_id wStore0 "qa" "qb" "va" "vb" "url" "url:value"
    wC4o1 wC4o2 wPatAll (by decide) (by decide) (by decide) (by decide)
    (by decide) (by decide) (by decide)
  exact ⟨h.1, by decide, h.2.2 wC4sX wC4sY (by decide) (by decide)⟩

theorem rowGet_groupRowMk_key (ts : Tables) (rows : List Row) (col : String)
    (k : Value) : rowGet (groupRowMk ts rows col k) col = k := by
  simp [groupRowMk, rowGet, List.find?_cons]

theorem rowGet_groupRowMk_no (ts : Tables) (rows : List Row) {col : String}
    (k : Value) (hne : col ≠ "number_observed") :
    rowGet (groupRowMk ts rows col k) "number_observed" =
      vint ((rows.filter (fun r => projectPath ts r col == k)).foldr
        (fun r acc => valueToInt (rowGet r "number_observed") + acc) 0) := by
  unfold groupRowMk rowGet
  rw [List.find?_cons_of_neg _ (by simp [hne]), List.find?_cons_of_pos _ (by simp)]

theorem groupRowMk_cols (ts : Tables) (rows : List Row) (col : String) (k : Value) :
    (groupRowMk ts rows col k).map (fun p => p.1) =
      col :: "number_observed" ::
        ((((rows.filter (fun r => projectPath ts r col == k)).flatMap
            (fun r => r.map (fun p => p.1))).dedup).filterMap (fun c =>
          if c == col || c == "number_observed" then none
          else some ("unique_" ++ c,
            aggValues ((rows.filter (fun r => projectPath ts r col == k)).map
              (fun r => rowGet r c))))).map (fun p => p.1) := rfl

theorem uniqueCol_ne_self (a : String) : "unique_" ++ a ≠ a := by
  intro h
  have h2 := congrArg String.length h
  rw [String.length_append, show ("unique_" : String).length = 7 from rfl] at h2
  omega

theorem uniqueCol_ne_no (a : String) : "unique_" ++ a ≠ "number_observed" := by
  intro h
  have h2 := congrArg (fun s => s.data.take 7) h
  simp only [String.data_append] at h2
  rw [show (7 : Nat) = ("unique_".data).length from rfl, List.take_left] at h2
  exact absurd h2 (by decide)

theorem uniqueCol_inj {a b : String} (h : "unique_" ++ a = "unique_" ++ b) :
    a = b := by
  apply String.ext
  have := congrArg String.data h
  rw [String.data_append, String.data_append] at this
  exact List.append_cancel_left this

/-- C5.  Group aggregation: assigning a group view over V collapses rows to
one per distinct value of the grouping path, sums number_observed per group,
exposes every other column as a unique_ aggregate, and has no unique_ column
for the grouping column itself. -/
theorem c5_group_aggregation
    (s s1 : Store) (G V b ty : String) (rows : List Row) (dV : VDef)
    (hbn : stripPathType b ≠ "number_observed")
    (hfresh : freshName s G)
    (hdV : viewLookup s V = some dV)
    (hV : lookup s V = Except.ok (ty, rows))
    (ha : assign s G V "group" b true none = Except.ok s1) :
    lookup s1 G = Except.ok (ty, groupRows s.tables rows (stripPathType b)) ∧
    (groupRows s.tables rows (stripPathType b)).map
        (fun r2 => rowGet r2 (stripPathType b)) =
      (rows.map (fun r => projectPath s.tables r (stripPathType b))).dedup ∧
    (∀ r2 ∈ groupRows s.tables rows (stripPathType b),
      rowGet r2 "number_observed" =
        vint ((rows.filter (fun r =>
            projectPath s.tables r (stripPathType b) ==
              rowGet r2 (stripPathType b))).foldr
          (fun r acc => valueToInt (rowGet r "number_observed") + acc) 0)) ∧
    (∃ cols, columns s1 G = Except.ok cols ∧
      (∀ r ∈ rows, ∀ cv ∈ r, cv.1 ≠ stripPathType b → cv.1 ≠ "number_observed" →
        ("unique_" ++ cv.1) ∈ cols) ∧
      ("unique_" ++ stripPathType b) ∉ cols) := by
  obtain ⟨dV2, -, hs1⟩ :=
    assign_ok_group_inv (Ne.symm (fresh_ne_of_viewLookup hfresh hdV)) ha
  subst hs1
  set col := stripPathType b with hcol
  have hlook : lookup (setView s G (VDef.grouped (VDef.ofView V) col)) G =
      Except.ok (ty, groupRows s.tables rows col) :=
    lookup_setView_grouped hfresh hdV hV
  refine ⟨hlook, ?_, ?_, ?_⟩
  · unfold groupRows
    rw [List.map_map]
    have h2 : ∀ k ∈ (rows.map (fun r => projectPath s.tables r col)).dedup,
        ((fun r2 => rowGet r2 col) ∘ groupRowMk s.tables rows col) k = id k := by
      intro k _
      simp only [Function.comp_apply, id]
      exact rowGet_groupRowMk_key _ _ _ _
    rw [List.map_congr_left h2, List.map_id]
  · intro r2 hr2
    obtain ⟨k, hk, heq⟩ := List.mem_map.mp hr2
    rw [← heq, rowGet_groupRowMk_no _ _ _ hbn, rowGet_groupRowMk_key]
  · refine ⟨((groupRows s.tables rows col).flatMap
      (fun r => r.map (fun q => q.1))).dedup, by unfold columns; rw [hlook]; rfl, ?_, ?_⟩
    · intro r hr cv hcv hne1 hne2
      have hk : projectPath s.tables r col ∈
          (rows.map (fun r => projectPath s.tables r col)).dedup :=
        List.mem_dedup.mpr (List.mem_map.mpr ⟨r, hr, rfl⟩)
      have hmk : groupRowMk s.tables rows col (projectPath s.tables r col) ∈
          groupRows s.tables rows col :=
        List.mem_map.mpr ⟨_, hk, rfl⟩
      have hgrp : r ∈ rows.filter
          (fun r2 => projectPath s.tables r2 col == projectPath s.tables r col) :=
        List.mem_filter.mpr ⟨hr, by simp⟩
      have hgc : cv.1 ∈ ((rows.filter
          (fun r2 => projectPath s.tables r2 col == projectPath s.tables r col)).flatMap
            (fun r2 => r2.map (fun p => p.1))).dedup :=
        List.mem_dedup.mpr (List.mem_flatMap.mpr
          ⟨r, hgrp, List.mem_map.mpr ⟨cv, hcv, rfl⟩⟩)
      refine List.mem_dedup.mpr (List.mem_flatMap.mpr ⟨_, hmk, ?_⟩)
      rw [groupRowMk_cols]
      refine List.mem_cons_of_mem _ (List.mem_cons_of_mem _ (List.mem_map.mpr
        ⟨("unique_" ++ cv.1, aggValues ((rows.filter (fun r2 =>
          projectPath s.tables r2 col == projectPath s.tables r col)).map
            (fun r2 => rowGet r2 cv.1))), ?_, rfl⟩))
      refine List.mem_filterMap.mpr ⟨cv.1, hgc, ?_⟩
      rw [if_neg (by simp [hne1, hne2])]
    · intro hmem
      obtain ⟨r2, hr2, hname⟩ := List.mem_flatMap.mp (List.mem_dedup.mp hmem)
      obtain ⟨k, hk, heq⟩ := List.mem_map.mp hr2
      rw [← heq, groupRowMk_cols] at hname
      cases List.mem_cons.mp hname with
      | inl h2 => exact uniqueCol_ne_self col h2
      | inr h2 =>
        cases List.mem_cons.mp h2 with
        | inl h3 => exact uniqueCol_ne_no col h3
        | inr h3 =>
          obtain ⟨pair, hpair, hfst⟩ := List.mem_map.mp h3
          obtain ⟨c, hc, hcEq⟩ := List.mem_filterMap.mp hpair
          by_cases hcond : (c == col || c == "number_observed") = true
          · rw [if_pos hcond] at hcEq
            cases hcEq
          · rw [if_neg hcond] at hcEq
            have h4 := congrArg Prod.fst (Option.some.inj hcEq)
            have hc2 : c = col := uniqueCol_inj (h4.trans hfst)
            apply hcond
            simp [hc2]

def wC5o1 : Obs :=
  { id := "ua--1", type := "user-account"
    props := [("account_login", vstr "isabel"), ("number_observed", vint 5)] }

def wC5o2 : Obs :=
  { id := "ua--2", type := "user-account"
    props := [("account_login", vstr "isabel"), ("number_observed", vint 7)] }

def wC5o3 : Obs :=
  { id := "ua--3", type := "user-account"
    props := [("account_login", vstr "henry"), ("number_observed", vint 2)] }

def wC5s : Store := cache wStore0 "q1" [wC5o1, wC5o2, wC5o3]

/-- Pattern user-account:account_login LIKE % in compiled form. -/
def wPatUsers : Pattern :=
  { rootType := "user-account"
    expr := PatternExpr.comp
      { prop := "account_login", negated := false, op := CompOp.likeOp
        rhs := CompRhs.val (vstr "%") } }

def wC5u : Store := okD (extract wC5s "users" "user-account" "q1" wPatUsers)

def wC5g : Store :=
  okD (assign wC5u "gusers" "users" "group" "user-account:account_login" true none)

def wC5rows : List Row := okRows (lookup wC5u "users")

def wC5dV : VDef := (viewLookup wC5u "users").getD (VDef.memb "" [])

/-- C5 witness: grouping the miniature user-account view by account_login
gives the isabel row number_observed 12 and the henry row 2. -/
theorem c5_witness :
    freshName wC5u "gusers" ∧
    viewLookup wC5u "users" = some wC5dV ∧
    lookup wC5u "users" = Except.ok ("user-account", wC5rows) ∧
    assign wC5u "gusers" "users" "group" "user-account:account_login" true none =
      Except.ok wC5g ∧
    lookup wC5g "gusers" = Except.ok ("user-account",
      groupRows wC5u.tables wC5rows
        (stripPathType "user-account:account_login")) ∧
    (groupRows wC5u.tables wC5rows "account_login").map
        (fun r => (rowGet r "account_login", rowGet r "number_observed")) =
      [(vstr "isabel", vint 12), (vstr "henry", vint 2)] :=
  ⟨by decide, by decide, by decide, by decide,
   (c5_group_aggregation wC5u wC5g "gusers" "users" "user-account:account_login"
      "user-account" wC5rows wC5dV (by decide) (by decide) (by decide)
      (by decide) (by decide)).1,
   by decide⟩

/-- A single-comparison pattern with the given root type. -/
def compPat (ty : String) (c : Comparison) : Pattern :=
  { rootType := ty, expr := PatternExpr.comp c }

/-- The ISSUBSET comparison on an attribute path against a CIDR literal. -/
def subsetComp (prop cidr : String) : Comparison :=
  { prop := prop, negated := false, op := CompOp.isSubsetOp
    rhs := CompRhs.val (vstr cidr) }

/-- The ISSUBSET test on one cell: a text cell inside the CIDR block. -/
def ipInCidr (v : Value) (cidr : String) : Bool :=
  match v with
  | Value.scalar (Scalar.str x) => cidrSubset x cidr
  | _ => false

theorem mem_extractIds_neg {s : Store} {ty : String} {qids : List String}
    {c : Comparison} {i : String} :
    i ∈ extractIds s ty qids
        { rootType := ty, expr := PatternExpr.comp (compNeg c) } ↔
      i ∈ qids ∧ (findRowById (tableOf s.tables ty) i).isSome = true ∧
        i ∉ extractIds s ty qids { rootType := ty, expr := PatternExpr.comp c } := by
  rw [mem_extractIds]
  cases hf : findRowById (tableOf s.tables ty) i with
  | none => simp [mem_extractIds, hf]
  | some r =>
    simp only [hf, evalPattern_comp_neg, mem_extractIds, Option.isSome_some,
      true_and]
    by_cases hqm : i ∈ qids
    · simp only [hqm, true_and, not_and]
      cases he : evalPattern s.tables
          { rootType := ty, expr := PatternExpr.comp c } r <;> simp
    · simp [hqm]

/-- C6.  ISSUBSET selects exactly the rows whose address cell lies in the
CIDR block (10.0.0.141 is inside 10.0.0.0/8 and 192.168.212.97 is not), and
for every comparison of the pattern language the NOT form selects exactly
the complement over the same source. -/
theorem c6_issubset_and_negation :
    cidrSubset "10.0.0.141" "10.0.0.0/8" = true ∧
    cidrSubset "192.168.212.97" "10.0.0.0/8" = false ∧
    (∀ (s sA : Store) (A ty q prop cidr : String) (qids : List String),
      queryLookup s q = some qids →
      extract s A ty q (compPat ty (subsetComp prop cidr)) = Except.ok sA →
      ∃ ids, viewLookup sA A = some (VDef.memb ty ids) ∧
        ∀ i, i ∈ ids ↔ i ∈ qids ∧
          ∃ r, findRowById (tableOf s.tables ty) i = some r ∧
            ipInCidr (projectPath s.tables r prop) cidr = true) ∧
    (∀ (s sP sN : Store) (A B ty q : String) (c : Comparison)
        (qids : List String),
      queryLookup s q = some qids →
      extract s A ty q (compPat ty c) = Except.ok sP →
      extract s B ty q (compPat ty (compNeg c)) = Except.ok sN →
      ∃ idsP idsN, viewLookup sP A = some (VDef.memb ty idsP) ∧
        viewLookup sN B = some (VDef.memb ty idsN) ∧
        ∀ i, i ∈ idsN ↔ i ∈ qids ∧
          (findRowById (tableOf s.tables ty) i).isSome = true ∧ i ∉ idsP) := by
  refine ⟨by decide, by decide, ?_, ?_⟩
  · intro s sA A ty q prop cidr qids hq hx
    obtain ⟨-, qids2, hq2, hsA⟩ := extract_ok_inv hx
    rw [hq] at hq2
    rw [← Option.some.inj hq2] at hsA
    subst hsA
    refine ⟨_, viewLookup_setView_self _ _ _, ?_⟩
    intro i
    rw [mem_extractIds]
    cases hf : findRowById (tableOf s.tables ty) i with
    | none =>
      simp only [hf]
      constructor
      · intro h2
        exact absurd h2.2 (by simp)
      · intro h2
        obtain ⟨r, hr, -⟩ := h2.2
        cases hr
    | some r =>
      constructor
      · intro h2
        exact ⟨h2.1, r, rfl, h2.2⟩
      · intro h2
        obtain ⟨r2, hr2, hip⟩ := h2.2
        cases Option.some.inj hr2
        exact ⟨h2.1, hip⟩
  · intro s sP sN A B ty q c qids hq hxP hxN
    obtain ⟨-, qidsP, hqP, hsP⟩ := extract_ok_inv hxP
    obtain ⟨-, qidsN, hqN, hsN⟩ := extract_ok_inv hxN
    rw [hq] at hqP hqN
    rw [← Option.some.inj hqP] at hsP
    rw [← Option.some.inj hqN] at hsN
    subst hsP
    subst hsN
    refine ⟨_, _, viewLookup_setView_self _ _ _, viewLookup_setView_self _ _ _, ?_⟩
    intro i
    exact mem_extractIds_neg

def wQ1ids : List String := (queryLookup wStore "q1").getD []

def wPatCidr : Pattern := compPat "ipv4-addr" (subsetComp "value" "10.0.0.0/8")

def wC6a : Store := okD (extract wStore "cips" "ipv4-addr" "q1" wPatCidr)

def wC6n : Store := okD (extract wStore "nips" "ipv4-addr" "q1"
  (compPat "ipv4-addr" (compNeg (subsetComp "value" "10.0.0.0/8"))))

/-- C6 witness: on the miniature bundle the ISSUBSET extract keeps exactly
10.0.0.141 and the NOT ISSUBSET extract keeps exactly 192.168.212.97. -/
theorem c6_witness :
    queryLookup wStore "q1" = some wQ1ids ∧
    extract wStore "cips" "ipv4-addr" "q1" wPatCidr = Except.ok wC6a ∧
    (∃ ids, viewLookup wC6a "cips" = some (VDef.memb "ipv4-addr" ids) ∧
      ∀ i, i ∈ ids ↔ i ∈ wQ1ids ∧
        ∃ r, findRowById (tableOf wStore.tables "ipv4-addr") i = some r ∧
          ipInCidr (projectPath wStore.tables r "value") "10.0.0.0/8" = true) ∧
    (∃ idsP idsN, viewLookup wC6a "cips" = some (VDef.memb "ipv4-addr" idsP) ∧
      viewLookup wC6n "nips" = some (VDef.memb "ipv4-addr" idsN) ∧
      ∀ i, i ∈ idsN ↔ i ∈ wQ1ids ∧
        (findRowById (tableOf wStore.tables "ipv4-addr") i).isSome = true ∧
          i ∉ idsP) ∧
    values wC6a "ipv4-addr:value" "cips" = Except.ok [vstr "10.0.0.141"] ∧
    values wC6n "ipv4-addr:value" "nips" = Except.ok [vstr "192.168.212.97"] :=
  ⟨by decide, by decide,
   c6_issubset_and_negation.2.2.1 wStore wC6a "cips" "ipv4-addr" "q1" "value"
     "10.0.0.0/8" wQ1ids (by decide) (by decide),
   c6_issubset_and_negation.2.2.2 wStore wC6a wC6n "cips" "nips" "ipv4-addr" "q1"
     (subsetComp "value" "10.0.0.0/8") wQ1ids (by decide) (by decide) (by decide),
   by decide, by decide⟩

theorem find?_filter_of_imp {α : Type} {p q : α → Bool}
    (himp : ∀ a, p a = true → q a = true) :
    ∀ l : List α, (l.filter q).find? p = l.find? p := by
  intro l
  induction l with
  | nil => rfl
  | cons x xs ih =>
    by_cases hp : p x = true
    · rw [List.filter_cons, if_pos (himp x hp), List.find?_cons_of_pos _ hp,
        List.find?_cons_of_pos _ hp]
    · by_cases hq : q x = true
      · rw [List.filter_cons, if_pos hq, List.find?_cons_of_neg _ hp,
          List.find?_cons_of_neg _ hp, ih]
      · rw [List.filter_cons, if_neg hq, List.find?_cons_of_neg _ hp, ih]

theorem rowGet_append (l1 l2 : Row) (c : String) :
    rowGet (l1 ++ l2) c = if rowHas l1 c then rowGet l1 c else rowGet l2 c := by
  unfold rowGet rowHas
  rw [List.find?_append]
  cases hf : l1.find? (fun p => p.1 == c) with
  | none => simp [hf]
  | some p => simp [hf]

theorem rowGet_null_cols (cols : List String) (c : String) (hmem : c ∈ cols) :
    rowGet (cols.map (fun c2 => (c2, vnull))) c = vnull := by
  induction cols with
  | nil => cases hmem
  | cons c0 cs ih =>
    by_cases he : c0 = c
    · simp [rowGet, List.find?_cons, he]
    · rw [List.map_cons]
      unfold rowGet
      rw [List.find?_cons_of_neg _ (by simp [he])]
      cases List.mem_cons.mp hmem with
      | inl h2 => exact absurd h2.symm he
      | inr h2 => exact ih h2

theorem rowGet_padRow_null (cols : List String) (lr : Row) {c : String}
    (hmem : c ∈ cols) (hno : rowHas lr c = false) :
    rowGet (padRow cols lr) c = vnull := by
  unfold padRow
  rw [rowGet_append, if_neg (by rw [hno]; simp)]
  exact rowGet_null_cols _ _ (List.mem_filter.mpr ⟨hmem, by rw [hno]; rfl⟩)

theorem rowGet_padRow_left (cols : List String) (lr : Row) {c : String}
    (hhas : rowHas lr c = true) :
    rowGet (padRow cols lr) c = rowGet lr c := by
  unfold padRow
  rw [rowGet_append, if_pos hhas]

theorem rowGet_rowMerge_right (lr rr : Row) {c : String}
    (hhas : rowHas rr c = true) :
    rowGet (rowMerge lr rr) c = rowGet rr c := by
  unfold rowMerge rowGet
  rw [List.find?_append]
  have hnone : (lr.filter (fun p => !rowHas rr p.1)).find?
      (fun p => p.1 == c) = none := by
    rw [List.find?_eq_none]
    intro p hp hpc
    have h2 := (List.mem_filter.mp hp).2
    rw [show p.1 = c by simpa using hpc, hhas] at h2
    cases h2
  rw [hnone, Option.none_or]

theorem rowGet_rowMerge_left (lr rr : Row) {c : String}
    (hno : rowHas rr c = false) :
    rowGet (rowMerge lr rr) c = rowGet lr c := by
  have hrr : rr.find? (fun p => p.1 == c) = none := by
    unfold rowHas at hno
    cases hr : rr.find? (fun p => p.1 == c) with
    | none => rfl
    | some q => rw [hr] at hno; simp at hno
  unfold rowMerge rowGet
  rw [List.find?_append]
  have hsame : (lr.filter (fun p => !rowHas rr p.1)).find? (fun p => p.1 == c) =
      lr.find? (fun p => p.1 == c) := by
    apply find?_filter_of_imp
    intro p hp
    unfold rowHas
    rw [show p.1 = c by simpa using hp, hrr]
    rfl
  rw [hsame]
  cases hf : lr.find? (fun p => p.1 == c) with
  | some p => rfl
  | none => rw [Option.none_or, hrr]

theorem joinOne_length_pos (rcols : List String) (rrows : List Row)
    (lcol rcol : String) (lr : Row) :
    1 ≤ (joinOne rcols rrows lcol rcol lr).length := by
  unfold joinOne
  cases rrows.filter (fun rr => joinEq (rowGet lr lcol) (rowGet rr rcol)) with
  | nil => simp
  | cons m ms => simp

theorem length_joinRows_ge (lrows : List Row) (lcol : String) (rrows : List Row)
    (rcol : String) :
    lrows.length ≤ (joinRows lrows lcol rrows rcol).length := by
  unfold joinRows
  induction lrows with
  | nil => simp
  | cons lr ls ih =>
    rw [List.flatMap_cons, List.length_append, List.length_cons]
    have := joinOne_length_pos
      ((rrows.flatMap (fun r => r.map (fun p => p.1))).dedup) rrows lcol rcol lr
    omega

theorem padRow_mem_joinRows {lrows : List Row} {lcol : String} {rrows : List Row}
    {rcol : String} {lr : Row} (hlr : lr ∈ lrows)
    (hnone : rrows.filter (fun rr => joinEq (rowGet lr lcol) (rowGet rr rcol)) = []) :
    padRow ((rrows.flatMap (fun r => r.map (fun p => p.1))).dedup) lr ∈
      joinRows lrows lcol rrows rcol := by
  unfold joinRows
  refine List.mem_flatMap.mpr ⟨lr, hlr, ?_⟩
  unfold joinOne
  rw [hnone]
  simp

theorem rowMerge_mem_joinRows {lrows : List Row} {lcol : String}
    {rrows : List Row} {rcol : String} {lr rr : Row} (hlr : lr ∈ lrows)
    (hrr : rr ∈ rrows)
    (hm : joinEq (rowGet lr lcol) (rowGet rr rcol) = true) :
    rowMerge lr rr ∈ joinRows lrows lcol rrows rcol := by
  unfold joinRows
  refine List.mem_flatMap.mpr ⟨lr, hlr, ?_⟩
  unfold joinOne
  have hmem : rr ∈ rrows.filter
      (fun rr => joinEq (rowGet lr lcol) (rowGet rr rcol)) :=
    List.mem_filter.mpr ⟨hrr, hm⟩
  cases hfil : rrows.filter (fun rr => joinEq (rowGet lr lcol) (rowGet rr rcol)) with
  | nil => rw [hfil] at hmem; cases hmem
  | cons m ms =>
    rw [hfil] at hmem
    exact List.mem_map.mpr ⟨rr, hmem, rfl⟩

/-- C7.  Left outer join: the join view inherits the left SCO type, keeps at
least one output row per left row, merges matching right rows with right
precedence on their columns, and pads non-matching left rows with NULL on
every column contributed by the right side. -/
theorem c7_left_outer_join
    (s s1 : Store) (n L R lcol rcol lty rty : String)
    (lrows rrows : List Row) (dL dR : VDef)
    (hfresh : freshName s n)
    (hdL : viewLookup s L = some dL) (hdR : viewLookup s R = some dR)
    (hL : lookup s L = Except.ok (lty, lrows))
    (hR : lookup s R = Except.ok (rty, rrows))
    (hj : join s n L lcol R rcol = Except.ok s1) :
    lookup s1 n = Except.ok (lty, joinRows lrows lcol rrows rcol) ∧
    lrows.length ≤ (joinRows lrows lcol rrows rcol).length ∧
    (∀ lr ∈ lrows,
      (rrows.filter (fun rr => joinEq (rowGet lr lcol) (rowGet rr rcol)) = [] →
        padRow ((rrows.flatMap (fun r => r.map (fun p => p.1))).dedup) lr ∈
          joinRows lrows lcol rrows rcol ∧
        (∀ c ∈ (rrows.flatMap (fun r => r.map (fun p => p.1))).dedup,
          rowHas lr c = false →
          rowGet (padRow ((rrows.flatMap
            (fun r => r.map (fun p => p.1))).dedup) lr) c = vnull) ∧
        (∀ c, rowHas lr c = true →
          rowGet (padRow ((rrows.flatMap
            (fun r => r.map (fun p => p.1))).dedup) lr) c = rowGet lr c)) ∧
      (∀ rr ∈ rrows, joinEq (rowGet lr lcol) (rowGet rr rcol) = true →
        rowMerge lr rr ∈ joinRows lrows lcol rrows rcol ∧
        (∀ c, rowHas rr c = true → rowGet (rowMerge lr rr) c = rowGet rr c) ∧
        (∀ c, rowHas rr c = false → rowGet (rowMerge lr rr) c = rowGet lr c))) := by
  obtain ⟨dL2, dR2, -, -, hs1⟩ := join_ok_inv
    (Ne.symm (fresh_ne_of_viewLookup hfresh hdL))
    (Ne.symm (fresh_ne_of_viewLookup hfresh hdR)) hj
  subst hs1
  refine ⟨lookup_setView_joined hfresh hdL hdR hL hR, length_joinRows_ge _ _ _ _, ?_⟩
  intro lr hlr
  constructor
  · intro hnone
    exact ⟨padRow_mem_joinRows hlr hnone,
      fun c hc hno => rowGet_padRow_null _ lr hc hno,
      fun c hhas => rowGet_padRow_left _ lr hhas⟩
  · intro rr hrr hm
    exact ⟨rowMerge_mem_joinRows hlr hrr hm,
      fun c hhas => rowGet_rowMerge_right lr rr hhas,
      fun c hno => rowGet_rowMerge_left lr rr hno⟩

/-- Unwrap a load result, falling back to the empty store. -/
def okDL (e : Except StoreErr (String × Store)) : Store :=
  match e with
  | Except.ok p => p.2
  | Except.error _ => { tables := [], queries := [], views := [] }

/-- Pattern ipv4-addr:value LIKE % in compiled form. -/
def wPatIpAll : Pattern :=
  compPat "ipv4-addr"
    { prop := "value", negated := false, op := CompOp.likeOp
      rhs := CompRhs.val (vstr "%") }

def wC7ips : Store := okD (extract wStore "local_ips" "ipv4-addr" "q1" wPatIpAll)

def wC7t : Store := okDL (load wC7ips "test_ips"
  [[("type", vstr "ipv4-addr"), ("value", vstr "10.0.0.141"),
    ("risk", vstr "high")]] none)

def wC7j : Store := okD (join wC7t "marked" "local_ips" "value" "test_ips" "value")

def wC7lrows : List Row := okRows (lookup wC7t "local_ips")

def wC7rrows : List Row := okRows (lookup wC7t "test_ips")

def wC7dL : VDef := (viewLookup wC7t "local_ips").getD (VDef.memb "" [])

def wC7dR : VDef := (viewLookup wC7t "test_ips").getD (VDef.memb "" [])

/-- C7 witness: joining the two miniature addresses against the loaded
enrichment row marks 10.0.0.141 with risk high and pads the other address
with a NULL risk. -/
theorem c7_witness :
    freshName wC7t "marked" ∧
    lookup wC7t "local_ips" = Except.ok ("ipv4-addr", wC7lrows) ∧
    lookup wC7t "test_ips" = Except.ok ("ipv4-addr", wC7rrows) ∧
    join wC7t "marked" "local_ips" "value" "test_ips" "value" = Except.ok wC7j ∧
    lookup wC7j "marked" =
      Except.ok ("ipv4-addr", joinRows wC7lrows "value" wC7rrows "value") ∧
    (joinRows wC7lrows "value" wC7rrows "value").map
        (fun r => (rowGet r "value", rowGet r "risk")) =
      [(vstr "10.0.0.141", vstr "high"), (vstr "192.168.212.97", vnull)] :=
  ⟨by decide, by decide, by decide, by decide,
   (c7_left_outer_join wC7t wC7j "marked" "local_ips" "test_ips" "value" "value"
     "ipv4-addr" "ipv4-addr" wC7lrows wC7rrows wC7dL wC7dR (by decide) (by decide)
     (by decide) (by decide) (by decide) (by decide)).1,
   by decide⟩

theorem length_filterMap_isSome {α β : Type} (f : α → Option β) :
    ∀ l : List α, (∀ a ∈ l, (f a).isSome = true) →
      (l.filterMap f).length = l.length := by
  intro l
  induction l with
  | nil => intro _; rfl
  | cons x xs ih =>
    intro h
    obtain ⟨b, hb⟩ := Option.isSome_iff_exists.mp (h x (List.mem_cons_self x xs))
    rw [List.filterMap_cons, hb, List.length_cons,
      ih (fun a ha => h a (List.mem_cons_of_mem x ha))]
    rfl

/-- C8.  Cross-type filter keeps each qualifying id once: when the pattern
root type differs from the requested type, the view collects the distinct
referenced observations of the requested type, so the row count equals the
number of distinct qualifying ids, with no double counting. -/
theorem c8_filter_distinct
    (s s1 : Store) (n ty src sty : String) (p : Pattern) (srows : List Row)
    (hne : p.rootType ≠ ty)
    (hsrc : lookup s src = Except.ok (sty, srows))
    (hf : filter s n ty src p = Except.ok s1) :
    ∃ ids, viewLookup s1 n = some (VDef.memb ty ids) ∧
      ids.Nodup ∧
      (∀ i, i ∈ ids ↔
        (∃ r ∈ srows, evalPattern s.tables p r = true ∧ i ∈ refIds r) ∧
          (findRowById (tableOf s.tables ty) i).isSome = true) ∧
      lookup s1 n = Except.ok (ty, membRows s.tables ty ids) ∧
      (membRows s.tables ty ids).length = ids.length := by
  unfold filter at hf
  rw [hsrc] at hf
  have hf2 : (if (p.rootType != sty) = true
      then (Except.error StoreErr.IncompatibleType : Except StoreErr Store)
      else Except.ok (setView s n (VDef.memb ty (filterIds s ty srows p)))) =
      Except.ok s1 := hf
  by_cases hg : (p.rootType != sty) = true
  case pos =>
    rw [if_pos hg] at hf2
    cases hf2
  case neg =>
    rw [if_neg hg] at hf2
    have hs1 : s1 = setView s n (VDef.memb ty (filterIds s ty srows p)) :=
      (Except.ok.inj hf2).symm
    subst hs1
    have hids : filterIds s ty srows p =
        (((srows.filter (fun r => evalPattern s.tables p r)).flatMap refIds).filter
          (fun i => (findRowById (tableOf s.tables ty) i).isSome)).dedup := by
      unfold filterIds
      rw [if_neg (by simp [hne])]
    have hchar : ∀ i, i ∈ filterIds s ty srows p ↔
        (∃ r ∈ srows, evalPattern s.tables p r = true ∧ i ∈ refIds r) ∧
          (findRowById (tableOf s.tables ty) i).isSome = true := by
      intro i
      rw [hids, List.mem_dedup, List.mem_filter, List.mem_flatMap]
      constructor
      · intro h2
        obtain ⟨r, hr, hir⟩ := h2.1
        exact ⟨⟨r, (List.mem_filter.mp hr).1, (List.mem_filter.mp hr).2, hir⟩, h2.2⟩
      · intro h2
        obtain ⟨r, hr, hev, hir⟩ := h2.1
        exact ⟨⟨r, List.mem_filter.mpr ⟨hr, hev⟩, hir⟩, h2.2⟩
    refine ⟨filterIds s ty srows p, viewLookup_setView_self _ _ _, ?_, hchar, ?_, ?_⟩
    · rw [hids]
      exact List.nodup_dedup _
    · rw [lookup_memb_of_viewLookup (viewLookup_setView_self _ _ _), tables_setView]
    · exact length_filterMap_isSome _ _ (fun i hi => ((hchar i).mp hi).2)

def wC8nt1 : Obs :=
  { id := "nt--1", type := "network-traffic"
    props := [("dst_port", vint 22), ("src_ref", vstr "ip--1"),
      ("dst_ref", vstr "ip--2")] }

def wC8nt2 : Obs :=
  { id := "nt--2", type := "network-traffic"
    props := [("dst_port", vint 22), ("src_ref", vstr "ip--2"),
      ("dst_ref", vstr "ip--1")] }

def wC8s : Store := cache wStore "q8" [wC8nt1, wC8nt2]

/-- Pattern network-traffic:dst_port = 22 in compiled form. -/
def wPatSsh : Pattern :=
  compPat "network-traffic"
    { prop := "dst_port", negated := false, op := CompOp.eqOp
      rhs := CompRhs.val (vint 22) }

def wC8c : Store := okD (extract wC8s "ssh_conns" "network-traffic" "q8" wPatSsh)

def wC8f : Store := okD (filter wC8c "ssh_ips" "ipv4-addr" "ssh_conns" wPatSsh)

def wC8srows : List Row := okRows (lookup wC8c "ssh_conns")

/-- C8 witness: two ssh flows reference the two addresses four times in
total, yet the cross-type filter view holds each address once: two rows,
not four. -/
theorem c8_witness :
    lookup wC8c "ssh_conns" = Except.ok ("network-traffic", wC8srows) ∧
    filter wC8c "ssh_ips" "ipv4-addr" "ssh_conns" wPatSsh = Except.ok wC8f ∧
    ((wC8srows.filter (fun r => evalPattern wC8c.tables wPatSsh r)).flatMap
      refIds).length = 4 ∧
    count wC8f "ssh_ips" = Except.ok 2 ∧
    (∃ ids, viewLookup wC8f "ssh_ips" = some (VDef.memb "ipv4-addr" ids) ∧
      ids.Nodup ∧
      (∀ i, i ∈ ids ↔
        (∃ r ∈ wC8srows, evalPattern wC8c.tables wPatSsh r = true ∧
          i ∈ refIds r) ∧
        (findRowById (tableOf wC8c.tables "ipv4-addr") i).isSome = true) ∧
      lookup wC8f "ssh_ips" =
        Except.ok ("ipv4-addr", membRows wC8c.tables "ipv4-addr" ids) ∧
      (membRows wC8c.tables "ipv4-addr" ids).length = ids.length) :=
  ⟨by decide, by decide, by decide, by decide,
   c8_filter_distinct wC8c wC8f "ssh_ips" "ipv4-addr" "ssh_conns"
     "network-traffic" wPatSsh wC8srows (by decide) (by decide) (by decide)⟩

def wC9row : Row :=
  [("id", vstr "url--1"), ("type", vstr "url"), ("value", vstr "a"),
    ("number_observed", vint 1)]

def wC9s : Store :=
  { tables := [("url", [wC9row])]
    queries := []
    views := [("nview", VDef.memb "url" ["url--1"]),
      ("sview", VDef.sorted (VDef.ofView "nview") "value" true none),
      ("mview", VDef.memb "url" ["url--1"])] }

def wC9r : Store := okD (removeView wC9s "nview")

/-- C9 counterexample: sview is an existing view other than nview, yet
after remove(nview) its lookup raises instead of returning its previous
contents, because sort views consult their source by name at read time. -/
theorem c9_counterexample :
    removeView wC9s "nview" = Except.ok wC9r ∧
    lookup wC9s "sview" = Except.ok ("url", [wC9row]) ∧
    lookup wC9r "sview" = Except.error (StoreErr.UnknownViewname "nview") := by
  refine ⟨by decide, by decide, by decide⟩

/-- C9 amended.  After remove(N), looking N up raises UnknownViewname (when
no type table shares the name); every other membership-backed view is
retrievable with unchanged contents, while derived views referencing N may
raise; and reading any unbound name raises UnknownViewname.  Reads never
mutate: lookup is a pure function of the store. -/
theorem c9_removal_unknown :
    (∀ (s s2 : Store) (N : String), removeView s N = Except.ok s2 →
      s.tables.find? (fun pr => pr.1 == N) = none →
      lookup s2 N = Except.error (StoreErr.UnknownViewname N)) ∧
    (∀ (s s2 : Store) (N W ty : String) (ids : List String),
      removeView s N = Except.ok s2 → W ≠ N →
      viewLookup s W = some (VDef.memb ty ids) →
      lookup s2 W = lookup s W) ∧
    (∀ (s : Store) (V : String), viewLookup s V = none →
      s.tables.find? (fun pr => pr.1 == V) = none →
      lookup s V = Except.error (StoreErr.UnknownViewname V)) := by
  refine ⟨?_, ?_, ?_⟩
  · intro s s2 N hrm htab
    obtain ⟨ht, -, hv⟩ := removeView_ok_inv hrm
    have hvl : viewLookup s2 N = none := by
      unfold viewLookup
      rw [hv]
      rw [List.find?_eq_none.mpr (fun p hp => by
        have := (List.mem_filter.mp hp).2
        simp only [bne_iff_ne, ne_eq, decide_eq_true_eq] at this
        simpa using this)]
    unfold lookup
    rw [hvl, ht, htab]
  · intro s s2 N W ty ids hrm hWN hvw
    obtain ⟨ht, -, hv⟩ := removeView_ok_inv hrm
    have hvw2 : viewLookup s2 W = some (VDef.memb ty ids) := by
      unfold viewLookup at hvw ⊢
      rw [hv, find?_fst_filter_ne hWN]
      exact hvw
    rw [lookup_memb_of_viewLookup hvw2, lookup_memb_of_viewLookup hvw, ht]
  · intro s V hvl htab
    unfold lookup
    rw [hvl, htab]

/-- C9 witness: removing nview from the concrete catalog makes its lookup
raise, leaves the membership view mview unchanged, and an unbound name
raises as well. -/
theorem c9_witness :
    removeView wC9s "nview" = Except.ok wC9r ∧
    (wC9s.tables.find? (fun pr => pr.1 == "nview")) = none ∧
    lookup wC9r "nview" = Except.error (StoreErr.UnknownViewname "nview") ∧
    lookup wC9r "mview" = lookup wC9s "mview" ∧
    lookup wC9s "ghost" = Except.error (StoreErr.UnknownViewname "ghost") :=
  ⟨by decide, by decide,
   c9_removal_unknown.1 wC9s wC9r "nview" (by decide) (by decide),
   c9_removal_unknown.2.1 wC9s wC9r "nview" "mview" "url" ["url--1"]
     (by decide) (by decide) (by decide),
   c9_removal_unknown.2.2 wC9s "ghost" (by decide) (by decide)⟩

theorem rowGet_obsRow_type (o : Obs) : rowGet (obsRow o) "type" = vstr o.type := rfl

theorem rowGet_mergeRow_type (r : Row) (o : Obs) :
    rowGet (mergeRow r o) "type" = rowGet r "type" := by
  unfold mergeRow
  rw [rowGet_mergeFold _ _ (Or.inr (Or.inr rfl))]
  exact rowGet_rowSet_ne r _ (by decide)

theorem upsert_preserves_typed {t : Table} {ty : String} {o : Obs}
    (hty : o.type = ty) (h : ∀ r ∈ t, rowGet r "type" = vstr ty) :
    ∀ r ∈ upsertObs t o, rowGet r "type" = vstr ty := by
  unfold upsertObs
  cases findRowById t o.id with
  | none =>
    intro r hr
    cases List.mem_append.mp hr with
    | inl h2 => exact h r h2
    | inr h2 =>
      rw [show r = obsRow o by simpa using h2, rowGet_obsRow_type, hty]
  | some _ =>
    intro r hr
    obtain ⟨r0, hr0, heq⟩ := List.mem_map.mp hr
    by_cases hc : (rowGet r0 "id" == vstr o.id) = true
    · rw [← heq, if_pos hc, rowGet_mergeRow_type]
      exact h r0 hr0
    · rw [← heq, if_neg hc]
      exact h r0 hr0

theorem loadFold_preserves_typed {ty : String} :
    ∀ (obss : List Obs) (s : Store), (∀ o ∈ obss, o.type = ty) →
      (∀ r ∈ tableOf s.tables ty, rowGet r "type" = vstr ty) →
      ∀ r ∈ tableOf ((obss.foldl (fun acc o => { acc with
        tables := setTable acc.tables o.type
          (upsertObs (tableOf acc.tables o.type) o) }) s)).tables ty,
        rowGet r "type" = vstr ty := by
  intro obss
  induction obss with
  | nil => intro s _ h; exact h
  | cons o os ih =>
    intro s hall h
    rw [List.foldl_cons]
    apply ih _ (fun o2 ho2 => hall o2 (List.mem_cons_of_mem o ho2))
    have hoty : o.type = ty := hall o (List.mem_cons_self o os)
    show ∀ r ∈ tableOf (setTable s.tables o.type
      (upsertObs (tableOf s.tables o.type) o)) ty, rowGet r "type" = vstr ty
    rw [hoty, tableOf_setTable_self]
    exact upsert_preserves_typed hoty h

/-- C10.  Load returns the SCO type: the provided type when one is given,
otherwise the type read from the type field of the records; and every row
of the created view carries that type, provided the type table held only
rows of its own type before. -/
theorem c10_load_type :
    (∀ (s : Store) (name t ty : String) (records : List Row) (s1 : Store),
      load s name records (some t) = Except.ok (ty, s1) → ty = t) ∧
    (∀ (s : Store) (name t ty : String) (records : List Row) (r0 : Row)
        (s1 : Store),
      records.head? = some r0 → rowGet r0 "type" = vstr t →
      load s name records none = Except.ok (ty, s1) → ty = t) ∧
    (∀ (s : Store) (name ty : String) (records : List Row)
        (scoType : Option String) (s1 : Store),
      (∀ r ∈ tableOf s.tables ty, rowGet r "type" = vstr ty) →
      load s name records scoType = Except.ok (ty, s1) →
      ∀ res, lookup s1 name = Except.ok res →
        res.1 = ty ∧ ∀ r ∈ res.2, rowGet r "type" = vstr ty) := by
  refine ⟨?_, ?_, ?_⟩
  · intro s name t ty records s1 h
    unfold load at h
    rw [show inferType records (some t) = some t from rfl] at h
    exact (congrArg Prod.fst (Except.ok.inj h)).symm
  · intro s name t ty records r0 s1 hhead htype h
    unfold load at h
    rw [show inferType records none = some t by
      unfold inferType
      rw [hhead]
      show (match rowGet r0 "type" with
        | Value.scalar (Scalar.str t2) => some t2
        | _ => none) = some t
      rw [htype]
      rfl] at h
    exact (congrArg Prod.fst (Except.ok.inj h)).symm
  · intro s name ty records scoType s1 htyped h res hres
    unfold load at h
    cases hinf : inferType records scoType with
    | none => rw [hinf] at h; cases h
    | some ty2 =>
      rw [hinf] at h
      have hpair := Except.ok.inj h
      obtain ⟨hty2, hs1⟩ := (Prod.mk.injEq _ _ _ _).mp hpair
      rw [← hs1] at hres
      rw [lookup_memb_of_viewLookup (viewLookup_setView_self _ _ _),
        tables_setView] at hres
      have hresval := Except.ok.inj hres
      rw [← hresval]
      refine ⟨hty2, ?_⟩
      intro r hr
      rw [← hty2] at htyped ⊢
      have hrt := mem_table_of_membRows hr
      refine loadFold_preserves_typed _ s ?_ htyped r hrt
      intro o ho
      obtain ⟨pr, -, heq⟩ := List.mem_map.mp ho
      rw [← heq]
      rfl

/-- Unwrap a load result pair, falling back to an empty result. -/
def okP (e : Except StoreErr (String × Store)) : String × Store :=
  match e with
  | Except.ok p => p
  | Except.error _ => ("", { tables := [], queries := [], views := [] })

def wC10recs : List Row := stringsToRecords ["10.0.0.1", "10.0.0.2"]

def wC10p : String × Store := okP (load wStore0 "test_ips" wC10recs (some "ipv4-addr"))

def wC10r0 : Row := [("type", vstr "process"), ("pid", vint 101)]

def wC10procs : List Row := [wC10r0]

def wC10q : String × Store := okP (load wStore0 "test_procs" wC10procs none)

/-- Unwrap a lookup result, falling back to an empty result. -/
def okLook (e : Except StoreErr (String × List Row)) : String × List Row :=
  match e with
  | Except.ok p => p
  | Except.error _ => ("", [])

def wC10res : String × List Row := okLook (lookup wC10p.2 "test_ips")

/-- C10 witness: loading two bare addresses with an explicit type returns
ipv4-addr, loading a process record without one returns process, and every
row of the created view carries the type. -/
theorem c10_witness :
    load wStore0 "test_ips" wC10recs (some "ipv4-addr") = Except.ok wC10p ∧
    wC10p.1 = "ipv4-addr" ∧
    load wStore0 "test_procs" wC10procs none = Except.ok wC10q ∧
    wC10q.1 = "process" ∧
    lookup wC10p.2 "test_ips" = Except.ok wC10res ∧
    (wC10res.1 = "ipv4-addr" ∧
      ∀ r ∈ wC10res.2, rowGet r "type" = vstr "ipv4-addr") :=
  ⟨by decide,
   c10_load_type.1 wStore0 "test_ips" "ipv4-addr" wC10p.1 wC10recs wC10p.2
     (by decide),
   by decide,
   c10_load_type.2.1 wStore0 "test_procs" "process" wC10q.1 wC10procs
     wC10r0 wC10q.2 (by decide) (by decide) (by decide),
   by decide,
   c10_load_type.2.2 wStore0 "test_ips" "ipv4-addr" wC10recs (some "ipv4-addr")
     wC10p.2 (by decide) (by decide) wC10res (by decide)⟩

end Firepit
